import Mathlib

/-
Verification of the sconfig configuration loader (sconfig.go).

The Go code is shallowly embedded: Go strings and byte slices become lists
of byte values (`GoStr := List Nat`, each entry < 256), Go's reflection-driven
walk over a configuration struct becomes a walk over an explicit type tree
(`GoType`) paired with a value tree (`GoVal`), and the process-wide mutable
globals (`encryptionKey`, `initialized`, the marker strings) become an explicit
state record threaded through `config_init` and `LoadConfig`.

External library calls are modelled at the granularity of their documented
contracts:
 - encoding/base64 (StdEncoding) is implemented in full (encode and decode,
   including newline skipping and the "(partial data, error)" return shape);
 - crypto/aes + cipher.NewGCM are modelled as an idealized AEAD with the Go
   parameters (12-byte nonce, 16-byte tag appended, key sizes 16/24/32): a
   keystream cipher plus a recomputable tag;
 - math/rand's seeded source is modelled by a deterministic Lehmer generator
   (the property the code relies on: a pure function of the 64-bit seed);
 - crypto/sha256 is implemented in full (never evaluated inside proofs);
 - encoding/json Unmarshal is modelled on the input this development
   exercises: the empty object leaves the record unchanged, anything else is
   conservatively a parse error; MarshalIndent + WriteFile are modelled by
   recording the record value handed to the serializer.

Go runtime panics (out-of-range slicing, reflect.Value.SetString on a
non-string field, reflect.Value.Int on a non-integer field, using a nil
cipher.Block) are modelled by the `Res.crash` outcome; log.Fatalf by
`Res.fatal`.
-/

namespace Sconfig

/-- A Go string / byte slice: a list of byte values. -/
abbrev GoStr := List Nat

/-- All entries are genuine bytes. -/
def byteOK (s : GoStr) : Prop := ∀ b ∈ s, b < 256

instance : DecidablePred byteOK := fun s =>
  inferInstanceAs (Decidable (∀ b ∈ s, b < 256))

/-- Outcome of running a piece of the Go code: normal result, a runtime
panic (`crash`), or process termination through log.Fatalf (`fatal`). -/
inductive Res (α : Type) where
  | crash : Res α
  | fatal : Res α
  | ok (a : α) : Res α
deriving DecidableEq, Repr

def Res.bind {α β : Type} : Res α → (α → Res β) → Res β
  | .crash, _ => .crash
  | .fatal, _ => .fatal
  | .ok a, f => f a

instance : Monad Res where
  pure := Res.ok
  bind := Res.bind

/-! ### encoding/base64, StdEncoding -/

/-- The standard base64 alphabet, as a map from a sextet to its ASCII byte. -/
def encTable (s : Nat) : Nat :=
  if s < 26 then 65 + s
  else if s < 52 then 71 + s
  else if s < 62 then s - 4
  else if s = 62 then 43
  else 47

/-- Inverse alphabet lookup; `none` on a byte outside the alphabet. -/
def decTable (c : Nat) : Option Nat :=
  if 65 ≤ c ∧ c ≤ 90 then some (c - 65)
  else if 97 ≤ c ∧ c ≤ 122 then some (c - 71)
  else if 48 ≤ c ∧ c ≤ 57 then some (c + 4)
  else if c = 43 then some 62
  else if c = 47 then some 63
  else none

/-- base64.StdEncoding.EncodeToString on a byte list. -/
def b64encode : List Nat → List Nat
  | b1 :: b2 :: b3 :: rest =>
      encTable (b1 / 4) :: encTable (b1 % 4 * 16 + b2 / 16) ::
      encTable (b2 % 16 * 4 + b3 / 64) :: encTable (b3 % 64) :: b64encode rest
  | [b1, b2] =>
      [encTable (b1 / 4), encTable (b1 % 4 * 16 + b2 / 16),
       encTable (b2 % 16 * 4), 61]
  | [b1] => [encTable (b1 / 4), encTable (b1 % 4 * 16), 61, 61]
  | [] => []

/-- Decoding of a newline-free input, processed in quanta of four symbols.
Mirrors Go's (data, err) return: the Bool is true when no error occurred,
and on error the bytes of the complete quanta decoded so far are kept. -/
def b64decodeRaw : List Nat → List Nat × Bool
  | [] => ([], true)
  | c1 :: c2 :: c3 :: c4 :: rest =>
    match decTable c1, decTable c2 with
    | some s1, some s2 =>
      if c3 = 61 then
        if c4 = 61 ∧ rest = [] then ([s1 * 4 + s2 / 16], true)
        else ([], false)
      else
        match decTable c3 with
        | some s3 =>
          if c4 = 61 then
            if rest = [] then ([s1 * 4 + s2 / 16, s2 % 16 * 16 + s3 / 4], true)
            else ([], false)
          else
            match decTable c4 with
            | some s4 =>
              let out := b64decodeRaw rest
              ((s1 * 4 + s2 / 16) :: (s2 % 16 * 16 + s3 / 4) ::
               (s3 % 4 * 64 + s4) :: out.1, out.2)
            | none => ([], false)
        | none => ([], false)
    | _, _ => ([], false)
  | _ => ([], false)

/-- base64.StdEncoding.DecodeString: newline bytes are skipped, then the
input is decoded in quanta of four. -/
def b64decode (s : List Nat) : List Nat × Bool :=
  b64decodeRaw (s.filter (fun c => c != 10 && c != 13))

/-! ### crypto/aes + cipher.NewGCM, as an idealized AEAD -/

/-- GCM nonce size used by the code (gcm.NonceSize()). -/
def nonceSize : Nat := 12

/-- GCM tag size (gcm.Overhead()). -/
def tagSize : Nat := 16

/-- aes.NewCipher accepts exactly 16-, 24- or 32-byte keys. -/
def validKeyLen (key : GoStr) : Prop :=
  key.length = 16 ∨ key.length = 24 ∨ key.length = 32

instance : DecidablePred validKeyLen := fun _ =>
  inferInstanceAs (Decidable (_ ∨ _ ∨ _))

/-- Fold a byte list into one number (used to mix key/nonce/data into the
idealized keystream and tag). -/
def bytesNum (s : GoStr) : Nat := s.foldl (fun a b => a * 256 + b + 1) 7

/-- Idealized AEAD keystream byte i under a key and nonce. -/
def gcmKS (key nonce : GoStr) (i : Nat) : Nat :=
  (bytesNum key * 131 + bytesNum nonce * 257 + i * 73 + 29) % 256

/-- XOR a byte list against the keystream, starting at position i.
Applying it twice gives back the input. -/
def ksMap (key nonce : GoStr) : Nat → List Nat → List Nat
  | _, [] => []
  | i, b :: bs => (b ^^^ gcmKS key nonce i) :: ksMap key nonce (i + 1) bs

/-- Idealized 16-byte authentication tag over key, nonce and ciphertext. -/
def gcmTag (key nonce ct : GoStr) : GoStr :=
  (List.range tagSize).map
    (fun i => (bytesNum key * 17 + bytesNum nonce * 5 + bytesNum ct * 9 + i * 101 + 3) % 256)

/-- gcm.Seal with empty additional data: ciphertext followed by the tag. -/
def gcmSeal (key nonce pt : GoStr) : GoStr :=
  ksMap key nonce 0 pt ++ gcmTag key nonce (ksMap key nonce 0 pt)

/-- gcm.Open with empty additional data: `none` is the authentication error
(too-short input, or a tag mismatch). -/
def gcmOpen (key nonce data : GoStr) : Option GoStr :=
  if data.length < tagSize then none
  else if data.drop (data.length - tagSize)
      = gcmTag key nonce (data.take (data.length - tagSize)) then
    some (ksMap key nonce 0 (data.take (data.length - tagSize)))
  else none

/-! ### encrypt / decrypt (sconfig.go lines 1090-1107) -/

/-- The encrypt function. The fresh random nonce drawn from crypto/rand is
passed in explicitly. Both error returns that the Go code discards with
`_` are modelled: an invalid key size leaves a nil cipher whose use panics
(`crash`), as does sealing with a nonce of the wrong length. -/
def encrypt (key nonce text : GoStr) : Res GoStr :=
  if ¬ validKeyLen key then .crash
  else if nonce.length ≠ nonceSize then .crash
  else .ok (b64encode (nonce ++ gcmSeal key nonce text))

/-- The decrypt function. Mirrors the Go code exactly: the base64 error is
discarded and the partial data used; `data[:nonceSize]` panics when the
decoded data is shorter than the nonce; gcm.Open's error is returned to the
caller as the Bool (true = success), alongside `string(plaintext)`. -/
def decrypt (key text : GoStr) : Res (GoStr × Bool) :=
  if ¬ validKeyLen key then .crash
  else
    let data := (b64decode text).1
    if data.length < nonceSize then .crash
    else
      let nonce := data.take nonceSize
      let ciphertext := data.drop nonceSize
      match gcmOpen key nonce ciphertext with
      | some pt => .ok (pt, true)
      | none => .ok ([], false)

/-! ### Round-trip lemmas for the codec -/

theorem decTable_encTable : ∀ s : Nat, s < 64 → decTable (encTable s) = some s := by
  decide

theorem encTable_ne : ∀ s : Nat, s < 64 →
    encTable s ≠ 10 ∧ encTable s ≠ 13 ∧ encTable s ≠ 61 := by
  decide

theorem mem_b64encode {bs : List Nat} (h : byteOK bs) {c : Nat}
    (hc : c ∈ b64encode bs) : c = 61 ∨ ∃ s, s < 64 ∧ c = encTable s := by
  induction bs using b64encode.induct with
  | case1 b1 b2 b3 rest ih =>
    have h1 : b1 < 256 := h b1 (by simp)
    have h2 : b2 < 256 := h b2 (by simp)
    have h3 : b3 < 256 := h b3 (by simp)
    rw [b64encode] at hc
    simp only [List.mem_cons] at hc
    rcases hc with rfl | rfl | rfl | rfl | hc
    · exact Or.inr ⟨_, by omega, rfl⟩
    · exact Or.inr ⟨_, by omega, rfl⟩
    · exact Or.inr ⟨_, by omega, rfl⟩
    · exact Or.inr ⟨_, by omega, rfl⟩
    · exact ih (fun b hb => h b (by simp [hb])) hc
  | case2 b1 b2 =>
    have h1 : b1 < 256 := h b1 (by simp)
    have h2 : b2 < 256 := h b2 (by simp)
    rw [b64encode] at hc
    simp only [List.mem_cons, List.not_mem_nil, or_false] at hc
    rcases hc with rfl | rfl | rfl | rfl
    · exact Or.inr ⟨_, by omega, rfl⟩
    · exact Or.inr ⟨_, by omega, rfl⟩
    · exact Or.inr ⟨_, by omega, rfl⟩
    · exact Or.inl rfl
  | case3 b1 =>
    have h1 : b1 < 256 := h b1 (by simp)
    rw [b64encode] at hc
    simp only [List.mem_cons, List.not_mem_nil, or_false] at hc
    rcases hc with rfl | rfl | rfl | rfl
    · exact Or.inr ⟨_, by omega, rfl⟩
    · exact Or.inr ⟨_, by omega, rfl⟩
    · exact Or.inl rfl
    · exact Or.inl rfl
  | case4 => simp [b64encode] at hc

theorem filter_b64encode {bs : List Nat} (h : byteOK bs) :
    (b64encode bs).filter (fun c => c != 10 && c != 13) = b64encode bs := by
  rw [List.filter_eq_self]
  intro c hc
  rcases mem_b64encode h hc with hc61 | ⟨s, hs, rfl⟩
  · subst hc61; decide
  · have := encTable_ne s hs
    simp [this.1, this.2.1]

theorem b64decodeRaw_encode {bs : List Nat} (h : byteOK bs) :
    b64decodeRaw (b64encode bs) = (bs, true) := by
  induction bs using b64encode.induct with
  | case1 b1 b2 b3 rest ih =>
    have h1 : b1 < 256 := h b1 (by simp)
    have h2 : b2 < 256 := h b2 (by simp)
    have h3 : b3 < 256 := h b3 (by simp)
    have e1 := decTable_encTable (b1 / 4) (by omega)
    have e2 := decTable_encTable (b1 % 4 * 16 + b2 / 16) (by omega)
    have e3 := decTable_encTable (b2 % 16 * 4 + b3 / 64) (by omega)
    have e4 := decTable_encTable (b3 % 64) (by omega)
    have n3 := (encTable_ne (b2 % 16 * 4 + b3 / 64) (by omega)).2.2
    have n4 := (encTable_ne (b3 % 64) (by omega)).2.2
    rw [b64encode, b64decodeRaw, e1, e2, e3, e4]
    simp only [eq_false n3, eq_false n4, if_false,
      ih (fun b hb => h b (by simp [hb])), Prod.mk.injEq, List.cons.injEq,
      and_true, true_and]
    omega
  | case2 b1 b2 =>
    have h1 : b1 < 256 := h b1 (by simp)
    have h2 : b2 < 256 := h b2 (by simp)
    have e1 := decTable_encTable (b1 / 4) (by omega)
    have e2 := decTable_encTable (b1 % 4 * 16 + b2 / 16) (by omega)
    have e3 := decTable_encTable (b2 % 16 * 4) (by omega)
    have n3 := (encTable_ne (b2 % 16 * 4) (by omega)).2.2
    rw [b64encode, b64decodeRaw, e1, e2, e3]
    simp only [eq_false n3, if_false, if_true, and_self, ite_true,
      Prod.mk.injEq, List.cons.injEq, and_true, true_and]
    omega
  | case3 b1 =>
    have h1 : b1 < 256 := h b1 (by simp)
    have e1 := decTable_encTable (b1 / 4) (by omega)
    have e2 := decTable_encTable (b1 % 4 * 16) (by omega)
    rw [b64encode, b64decodeRaw, e1, e2]
    simp only [if_true, and_self, ite_true, Prod.mk.injEq, List.cons.injEq,
      and_true, true_and]
    omega
  | case4 => rfl

theorem b64decode_encode {bs : List Nat} (h : byteOK bs) :
    b64decode (b64encode bs) = (bs, true) := by
  rw [b64decode, filter_b64encode h, b64decodeRaw_encode h]

theorem ksMap_length (key nonce : GoStr) : ∀ i bs, (ksMap key nonce i bs).length = bs.length := by
  intro i bs
  induction bs generalizing i with
  | nil => rfl
  | cons b bs ih => simp [ksMap, ih]

theorem ksMap_ksMap (key nonce : GoStr) : ∀ i bs, ksMap key nonce i (ksMap key nonce i bs) = bs := by
  intro i bs
  induction bs generalizing i with
  | nil => rfl
  | cons b bs ih => simp [ksMap, ih, Nat.xor_cancel_right]

theorem ksMap_byteOK (key nonce : GoStr) : ∀ i bs, byteOK bs → byteOK (ksMap key nonce i bs) := by
  intro i bs
  induction bs generalizing i with
  | nil => intro h; exact h
  | cons b bs ih =>
    intro h x hx
    rw [ksMap] at hx
    rcases List.mem_cons.mp hx with rfl | hx
    · have hb : b < 256 := h b (by simp)
      have hk : gcmKS key nonce i < 256 := Nat.mod_lt _ (by norm_num)
      calc b ^^^ gcmKS key nonce i < 2 ^ 8 :=
            Nat.xor_lt_two_pow (by simpa using hb) (by simpa using hk)
        _ = 256 := by norm_num
    · exact ih (i + 1) (fun y hy => h y (by simp [hy])) x hx

theorem gcmTag_length (key nonce ct : GoStr) : (gcmTag key nonce ct).length = tagSize := by
  simp [gcmTag]

theorem gcmTag_byteOK (key nonce ct : GoStr) : byteOK (gcmTag key nonce ct) := by
  intro b hb
  simp only [gcmTag, List.mem_map] at hb
  obtain ⟨i, _, rfl⟩ := hb
  exact Nat.mod_lt _ (by norm_num)

theorem gcmOpen_gcmSeal (key nonce pt : GoStr) :
    gcmOpen key nonce (gcmSeal key nonce pt) = some pt := by
  have hlen : (gcmSeal key nonce pt).length = pt.length + tagSize := by
    simp [gcmSeal, gcmTag_length, ksMap_length]
  have hct : (gcmSeal key nonce pt).length - tagSize = (ksMap key nonce 0 pt).length := by
    rw [hlen, ksMap_length]; omega
  rw [gcmOpen, if_neg (by omega), hct]
  rw [gcmSeal, List.take_left, List.drop_left, if_pos rfl, ksMap_ksMap]

theorem gcmSeal_byteOK (key nonce pt : GoStr) (h : byteOK pt) :
    byteOK (gcmSeal key nonce pt) := by
  intro b hb
  rw [gcmSeal, List.mem_append] at hb
  rcases hb with hb | hb
  · exact ksMap_byteOK key nonce 0 pt h b hb
  · exact gcmTag_byteOK key nonce _ b hb

/-- Claim C1: for every plaintext byte string s and every 256-bit key,
decrypting the result of encrypting s under that key (with the fresh random
12-byte nonce that encrypt draws) returns s without error: within the same
process context, open (seal s) = s. -/
theorem encrypt_decrypt_roundtrip (key nonce s e : GoStr)
    (hk : key.length = 32) (hn : nonce.length = nonceSize)
    (hbn : byteOK nonce) (hbs : byteOK s)
    (he : encrypt key nonce s = Res.ok e) :
    decrypt key e = Res.ok (s, true) := by
  have hvk : validKeyLen key := Or.inr (Or.inr hk)
  rw [encrypt, if_neg (not_not_intro hvk), if_neg (by omega)] at he
  obtain rfl : b64encode (nonce ++ gcmSeal key nonce s) = e := by
    injection he
  have hb : byteOK (nonce ++ gcmSeal key nonce s) := by
    intro b hb
    rw [List.mem_append] at hb
    rcases hb with hb | hb
    · exact hbn b hb
    · exact gcmSeal_byteOK key nonce s hbs b hb
  rw [decrypt, if_neg (not_not_intro hvk)]
  simp only [b64decode_encode hb]
  have hlen : (nonce ++ gcmSeal key nonce s).length = nonceSize + (s.length + tagSize) := by
    simp [hn, gcmSeal, gcmTag_length, ksMap_length]
  rw [if_neg (by omega)]
  have htake : (nonce ++ gcmSeal key nonce s).take nonceSize = nonce := by
    rw [← hn, List.take_left]
  have hdrop : (nonce ++ gcmSeal key nonce s).drop nonceSize = gcmSeal key nonce s := by
    rw [← hn, List.drop_left]
  simp only [htake, hdrop, gcmOpen_gcmSeal]

/-- Witness for C1 at a concrete key, nonce and plaintext. -/
theorem encrypt_decrypt_roundtrip_witness :
    decrypt (List.replicate 32 1) (b64encode (List.replicate 12 2 ++
      gcmSeal (List.replicate 32 1) (List.replicate 12 2) [104, 105])) =
      Res.ok ([104, 105], true) :=
  encrypt_decrypt_roundtrip (List.replicate 32 1) (List.replicate 12 2) [104, 105] _
    (by decide) (by decide) (by decide) (by decide) rfl

/-! ### Hardware identifier (sconfig.go lines 743-779)

The platform probing (OS commands, pseudo-files) is abstracted as the list
of identifier strings it collected; everything from the zero-identifier
check onward is embedded from the source. -/

/-- One inner pass of the exchange sort at sconfig.go:749-755: the current
element at position i is carried along; whenever a later element is smaller
the two are swapped. Returns the element left at position i and the
rewritten tail. -/
def selPass (x : GoStr) : List GoStr → GoStr × List GoStr
  | [] => (x, [])
  | y :: ys =>
    if y < x then
      ((selPass y ys).1, x :: (selPass y ys).2)
    else
      ((selPass x ys).1, y :: (selPass x ys).2)

theorem selPass_length (x : GoStr) (l : List GoStr) :
    (selPass x l).2.length = l.length := by
  induction l generalizing x with
  | nil => rfl
  | cons y ys ih =>
    rw [selPass]
    by_cases h : y < x
    · simp [h, ih]
    · simp [h, ih]

/-- The outer loop of the exchange sort, fuelled by the list length (the
inner pass preserves the length, so the fuel is exact). -/
def sortIdsAux : Nat → List GoStr → List GoStr
  | 0, l => l
  | _ + 1, [] => []
  | n + 1, x :: xs => (selPass x xs).1 :: sortIdsAux n (selPass x xs).2

/-- The double loop of the exchange sort at sconfig.go:749-755. -/
def sortIds (l : List GoStr) : List GoStr := sortIdsAux l.length l

/-- strings.Join(identifiers, "|"). -/
def joinBar : List GoStr → GoStr
  | [] => []
  | [x] => x
  | x :: y :: rest => x ++ 124 :: joinBar (y :: rest)

/-- The byte string hashed at sconfig.go:765: the sorted identifiers joined
with the pipe delimiter. -/
def combinedIdentifiers (ids : List GoStr) : GoStr := joinBar (sortIds ids)

/-- The same step as the spec describes it (section 4.1 step 4-5): the
collected identifiers are deduplicated AND sorted before joining. Stated for
comparison with `combinedIdentifiers`. -/
def combinedIdentifiersSpec (ids : List GoStr) : GoStr :=
  joinBar ((sortIds ids).dedup)

/-! SHA-256, implemented in full (crypto/sha256). -/

/-- Reduce to a 32-bit word. -/
def w32 (x : Nat) : Nat := x % 4294967296

/-- Right rotation of a 32-bit word. -/
def rotr (n x : Nat) : Nat := w32 (x >>> n ||| x <<< (32 - n))

def shaCh (x y z : Nat) : Nat := (x &&& y) ^^^ ((x ^^^ 4294967295) &&& z)

def shaMaj (x y z : Nat) : Nat := (x &&& y) ^^^ (x &&& z) ^^^ (y &&& z)

def shaS0 (x : Nat) : Nat := rotr 2 x ^^^ rotr 13 x ^^^ rotr 22 x

def shaS1 (x : Nat) : Nat := rotr 6 x ^^^ rotr 11 x ^^^ rotr 25 x

def shaG0 (x : Nat) : Nat := rotr 7 x ^^^ rotr 18 x ^^^ (x >>> 3)

def shaG1 (x : Nat) : Nat := rotr 17 x ^^^ rotr 19 x ^^^ (x >>> 10)

/-- The 64 SHA-256 round constants. -/
def shaK : List Nat :=
  [1116352408, 1899447441, 3049323471, 3921009573, 961987163, 1508970993,
   2453635748, 2870763221, 3624381080, 310598401, 607225278, 1426881987,
   1925078388, 2162078206, 2614888103, 3248222580, 3835390401, 4022224774,
   264347078, 604807628, 770255983, 1249150122, 1555081692, 1996064986,
   2554220882, 2821834349, 2952996808, 3210313671, 3336571891, 3584528711,
   113926993, 338241895, 666307205, 773529912, 1294757372, 1396182291,
   1695183700, 1986661051, 2177026350, 2456956037, 2730485921, 2820302411,
   3259730800, 3345764771, 3516065817, 3600352804, 4094571909, 275423344,
   430227734, 506948616, 659060556, 883997877, 958139571, 1322822218,
   1537002063, 1747873779, 1955562222, 2024104815, 2227730452, 2361852424,
   2428436474, 2756734187, 3204031479, 3329325298]

/-- The 8 initial SHA-256 state words. -/
def shaH0 : List Nat :=
  [1779033703, 3144134277, 1013904242, 2773480762,
   1359893119, 2600822924, 528734635, 1541459225]

/-- SHA-256 padding: 0x80, zeros to 56 mod 64, then the bit length as 8
big-endian bytes. -/
def shaPad (msg : List Nat) : List Nat :=
  let bitLen := msg.length * 8
  msg ++ 128 :: List.replicate ((119 - msg.length % 64) % 64) 0 ++
    [bitLen / 72057594037927936 % 256, bitLen / 281474976710656 % 256,
     bitLen / 1099511627776 % 256, bitLen / 4294967296 % 256,
     bitLen / 16777216 % 256, bitLen / 65536 % 256,
     bitLen / 256 % 256, bitLen % 256]

/-- Big-endian 4-byte groups to 32-bit words. -/
def bytesToWords : List Nat → List Nat
  | a :: b :: c :: d :: rest =>
    (a * 16777216 + b * 65536 + c * 256 + d) :: bytesToWords rest
  | _ => []

/-- Extend the 16 message words of one block to the 64-entry schedule. -/
def shaSchedule (w16 : List Nat) : List Nat :=
  (List.range 48).foldl
    (fun w _ =>
      w ++ [w32 (w.getD (w.length - 16) 0 + shaG0 (w.getD (w.length - 15) 0) +
        w.getD (w.length - 7) 0 + shaG1 (w.getD (w.length - 2) 0))])
    w16

/-- One SHA-256 compression round over the 8-word state vector. -/
def shaRound (w : List Nat) (v : List Nat) (i : Nat) : List Nat :=
  match v with
  | [a, b, c, d, e, f, g, hh] =>
    let t1 := w32 (hh + shaS1 e + shaCh e f g + shaK.getD i 0 + w.getD i 0)
    let t2 := w32 (shaS0 a + shaMaj a b c)
    [w32 (t1 + t2), a, b, c, w32 (d + t1), e, f, g]
  | v => v

/-- Compress one 64-byte block into the running state. -/
def shaCompress (st : List Nat) (block : List Nat) : List Nat :=
  let w := shaSchedule (bytesToWords block)
  let v := (List.range 64).foldl (shaRound w) st
  (st.zip v).map (fun p => w32 (p.1 + p.2))

/-- Split into n blocks of 64 bytes. -/
def toBlocksN : Nat → List Nat → List (List Nat)
  | 0, _ => []
  | n + 1, l => l.take 64 :: toBlocksN n (l.drop 64)

/-- sha256.Sum256 as a byte list of length 32. -/
def sha256 (msg : List Nat) : List Nat :=
  let padded := shaPad msg
  let st := (toBlocksN (padded.length / 64) padded).foldl shaCompress shaH0
  st.foldr
    (fun w acc => w / 16777216 % 256 :: w / 65536 % 256 :: w / 256 % 256 :: w % 256 :: acc)
    []

/-- The little-endian fold of the digest's first 8 bytes at sconfig.go:774:
uint64(hash[7])<<56 + ... + uint64(hash[1])<<8 + uint64(hash[0]). -/
def leU64 (hash : List Nat) : Nat :=
  hash.getD 7 0 * 72057594037927936 + hash.getD 6 0 * 281474976710656 +
  hash.getD 5 0 * 1099511627776 + hash.getD 4 0 * 4294967296 +
  hash.getD 3 0 * 16777216 + hash.getD 2 0 * 65536 +
  hash.getD 1 0 * 256 + hash.getD 0 0

/-- secure_config_getHardwareID_debug from the zero-identifier check on:
given the identifiers the platform probes collected, fail when there are
none, otherwise sort, join, hash, and fold the first 8 digest bytes
little-endian into the 64-bit machine identifier. -/
def secure_config_getHardwareID (ids : List GoStr) : Except Unit Nat :=
  if ids = [] then .error ()
  else .ok (leU64 (sha256 (combinedIdentifiers ids)))

theorem selPass_perm (x : GoStr) (l : List GoStr) :
    ((selPass x l).1 :: (selPass x l).2).Perm (x :: l) := by
  induction l generalizing x with
  | nil => exact List.Perm.refl _
  | cons y ys ih =>
    rw [selPass]
    by_cases h : y < x
    · simp only [if_pos h]
      exact (List.Perm.swap x (selPass y ys).1 (selPass y ys).2).trans ((ih y).cons x)
    · simp only [if_neg h]
      exact ((List.Perm.swap y (selPass x ys).1 (selPass x ys).2).trans
        ((ih x).cons y)).trans (List.Perm.swap x y ys)

theorem selPass_min (x : GoStr) (l : List GoStr) :
    (selPass x l).1 ≤ x ∧ ∀ z ∈ (selPass x l).2, (selPass x l).1 ≤ z := by
  induction l generalizing x with
  | nil => exact ⟨le_refl x, by simp [selPass]⟩
  | cons y ys ih =>
    rw [selPass]
    by_cases h : y < x
    · simp only [if_pos h]
      refine ⟨le_trans (ih y).1 (le_of_lt h), ?_⟩
      intro z hz
      rcases List.mem_cons.mp hz with rfl | hz
      · exact le_trans (ih y).1 (le_of_lt h)
      · exact (ih y).2 z hz
    · simp only [if_neg h]
      refine ⟨(ih x).1, ?_⟩
      intro z hz
      rcases List.mem_cons.mp hz with rfl | hz
      · exact le_trans (ih x).1 (le_of_not_lt h)
      · exact (ih x).2 z hz

theorem sortIdsAux_perm : ∀ (n : Nat) (l : List GoStr), l.length = n →
    (sortIdsAux n l).Perm l := by
  intro n
  induction n with
  | zero => intro l _; exact List.Perm.refl l
  | succ n ih =>
    intro l hl
    match l with
    | x :: xs =>
      rw [sortIdsAux]
      have hlen : (selPass x xs).2.length = n := by
        rw [selPass_length]
        simpa using hl
      exact ((ih _ hlen).cons _).trans (selPass_perm x xs)

theorem sortIds_perm (l : List GoStr) : (sortIds l).Perm l :=
  sortIdsAux_perm l.length l rfl

theorem sortIdsAux_sorted : ∀ (n : Nat) (l : List GoStr), l.length = n →
    List.Sorted (· ≤ ·) (sortIdsAux n l) := by
  intro n
  induction n with
  | zero =>
    intro l hl
    rw [List.length_eq_zero] at hl
    subst hl
    simp [sortIdsAux]
  | succ n ih =>
    intro l hl
    match l with
    | x :: xs =>
      rw [sortIdsAux, List.sorted_cons]
      have hlen : (selPass x xs).2.length = n := by
        rw [selPass_length]
        simpa using hl
      refine ⟨?_, ih _ hlen⟩
      intro b hb
      have hb2 : b ∈ (selPass x xs).2 := (sortIdsAux_perm _ _ hlen).mem_iff.mp hb
      exact (selPass_min x xs).2 b hb2

theorem sortIds_sorted (l : List GoStr) : List.Sorted (· ≤ ·) (sortIds l) :=
  sortIdsAux_sorted l.length l rfl

theorem sortIds_eq_of_perm {l₁ l₂ : List GoStr} (h : l₁.Perm l₂) :
    sortIds l₁ = sortIds l₂ :=
  List.eq_of_perm_of_sorted
    (((sortIds_perm l₁).trans h).trans (sortIds_perm l₂).symm)
    (sortIds_sorted l₁) (sortIds_sorted l₂)

/-- Counterexample for claim C6: the code does not deduplicate the collected
identifier list before joining and hashing. With the identifier "a" collected
twice, the byte string the code hashes is "a|a" while the spec's
deduplicate-then-sort-then-join pipeline hashes "a". -/
theorem combinedIdentifiers_no_dedup :
    combinedIdentifiers [[97], [97]] ≠ combinedIdentifiersSpec [[97], [97]] := by
  decide

/-- Claim C6 (amended: the collected identifier list is sorted, but not
deduplicated, before joining): the 64-bit hardware identifier is invariant
under the order of collection — any two permutations of the same collected
identifier list produce the same identifier (the sort makes the joined
string, and hence the SHA-256 digest and its little-endian 8-byte fold,
independent of collection order). -/
theorem hardwareID_perm_invariant (l₁ l₂ : List GoStr) (h : l₁.Perm l₂) :
    secure_config_getHardwareID l₁ = secure_config_getHardwareID l₂ := by
  rw [secure_config_getHardwareID, secure_config_getHardwareID,
    combinedIdentifiers, combinedIdentifiers, sortIds_eq_of_perm h]
  rcases eq_or_ne l₁ [] with rfl | h1
  · rw [h.symm.eq_nil]
  · have h2 : l₂ ≠ [] := by
      intro h2
      exact h1 (List.Perm.eq_nil (h2 ▸ h))
    rw [if_neg h1, if_neg h2]

/-- Witness for C6 at two concrete collection orders of the same identifiers. -/
theorem hardwareID_perm_invariant_witness :
    secure_config_getHardwareID [[97], [98], [97]] =
      secure_config_getHardwareID [[98], [97], [97]] :=
  hardwareID_perm_invariant [[97], [98], [97]] [[98], [97], [97]] (by decide)

/-! ### Process-wide state and config_init (sconfig.go lines 48-62, 884-915) -/

/-- Interface languages of the i18n layer. Modelled from the spec: the i18n
translation layer (i18n.go and the locales files) is not among the sources;
the spec's PlaceholderRegistry prescribes one recognized marker string per
supported language (German and English). -/
inductive Lang where
  | de : Lang
  | en : Lang
deriving DecidableEq, Repr

/-- Modelled from the spec: the localized "password is secure" marker,
t("config.password_message") under the given language. The two values are
distinct and non-empty, which is all the code relies on. -/
def markerOfLang : Lang → GoStr
  | .de => [77, 75, 100, 101]
  | .en => [77, 75, 101, 110]

/-- The package-level mutable state: the `initialized` guard, the derived
encryption key, the three marker variables (PASSWORD_IS_SECURE_de,
PASSWORD_IS_SECURE_en, PASSWORD_IS_SECURE) and the active i18n language. -/
structure SState where
  initialized : Bool
  encryptionKey : GoStr
  mk_de : GoStr
  mk_en : GoStr
  mk_cur : GoStr
  lang : Lang
deriving DecidableEq, Repr

/-- Models math/rand's deterministic seeded source by a Lehmer generator:
like Go's lagged-Fibonacci source, the stream is a pure function of the
seed (which is what config_init relies on — "same seed, identical key
stream"). -/
def lehmerNext (s : Nat) : Nat := s * 48271 % 2147483647

/-- Draw n bytes from the seeded stream, each byte taken as
(value >> 16) & 0xff like the key-generation loop does. -/
def keyStream : Nat → Nat → GoStr
  | _, 0 => []
  | s, n + 1 => (lehmerNext s >>> 16 &&& 255) :: keyStream (lehmerNext s) n

/-- The 32-byte encryption key derived from the 64-bit hardware identifier
(the loop at sconfig.go:894-898). -/
def keyFromID (id : Nat) : GoStr := keyStream (id % 2147483646 + 1) 32

theorem keyStream_length : ∀ (s n : Nat), (keyStream s n).length = n := by
  intro s n
  induction n generalizing s with
  | zero => rfl
  | succ n ih => simp [keyStream, ih]

theorem keyFromID_length (id : Nat) : (keyFromID id).length = 32 :=
  keyStream_length _ 32

theorem keyStream_byteOK : ∀ (s n : Nat), byteOK (keyStream s n) := by
  intro s n
  induction n generalizing s with
  | zero => intro b hb; simp [keyStream] at hb
  | succ n ih =>
    intro b hb
    rw [keyStream] at hb
    rcases List.mem_cons.mp hb with rfl | hb
    · have : lehmerNext s >>> 16 &&& 255 ≤ 255 := Nat.and_le_right
      omega
    · exact ih _ b hb

/-- config_init (sconfig.go:884-915). The result of the hardware-ID
function is passed as data. When not yet initialized: a hardware-ID failure
terminates the process through log.Fatalf (`Res.fatal`); otherwise the key
is derived from the identifier and the three marker variables are set from
the i18n layer (the current language is saved and restored around reading
the German and English variants). When already initialized nothing is
recomputed; the guard is (re)set to true. -/
def config_init (hw : Except Unit Nat) (st : SState) : Res SState :=
  if st.initialized then .ok { st with initialized := true }
  else
    match hw with
    | .error _ => .fatal
    | .ok id =>
      .ok { initialized := true, encryptionKey := keyFromID id,
            mk_de := markerOfLang .de, mk_en := markerOfLang .en,
            mk_cur := markerOfLang st.lang, lang := st.lang }

/-- An already-initialized state passes through config_init unchanged. -/
theorem config_init_noop (st : SState) (hw : Except Unit Nat)
    (h : st.initialized = true) : config_init hw st = Res.ok st := by
  rw [config_init.eq_def, if_pos h]
  cases st
  simp only at h
  simp [h]

/-- Claim C7: key derivation is deterministic and memoized. First part:
from any two uninitialized states, initialization with the same 64-bit
hardware identifier derives the identical 256-bit (32-byte) key, namely the
pure function keyFromID of the identifier. Second part: once initialized,
a later call leaves the state (key included) exactly unchanged, whatever
hardware-ID function result it is given. -/
theorem config_init_deterministic_memoized :
    (∀ (st : SState) (id : Nat), st.initialized = false →
      ∃ st', config_init (Except.ok id) st = Res.ok st' ∧
        st'.encryptionKey = keyFromID id ∧ st'.encryptionKey.length = 32) ∧
    (∀ (st : SState) (hw : Except Unit Nat), st.initialized = true →
      config_init hw st = Res.ok st) := by
  constructor
  · intro st id h
    refine ⟨{ initialized := true, encryptionKey := keyFromID id,
              mk_de := markerOfLang .de, mk_en := markerOfLang .en,
              mk_cur := markerOfLang st.lang, lang := st.lang },
            ?_, rfl, keyFromID_length id⟩
    rw [config_init.eq_def, if_neg (by simp [h])]
  · intro st hw h
    exact config_init_noop st hw h

/-- Witness for C7: a concrete uninitialized state gets the derived key, and
a concrete initialized state is returned unchanged even when the hardware-ID
function now fails. -/
theorem config_init_deterministic_memoized_witness :
    (∃ st', config_init (Except.ok 5) ⟨false, [], [], [], [], Lang.en⟩ = Res.ok st' ∧
      st'.encryptionKey = keyFromID 5 ∧ st'.encryptionKey.length = 32) ∧
    config_init (Except.error ()) ⟨true, [1], [2], [3], [2], Lang.de⟩ =
      Res.ok ⟨true, [1], [2], [3], [2], Lang.de⟩ :=
  ⟨config_init_deterministic_memoized.1 ⟨false, [], [], [], [], Lang.en⟩ 5 rfl,
   config_init_deterministic_memoized.2 ⟨true, [1], [2], [3], [2], Lang.de⟩
     (Except.error ()) rfl⟩

/-! ### The configuration record model

Go reflection walks the static type of the record (field names, tags and
kinds never change during a walk) while reading and writing the field
values.  The embedding mirrors this: a `GoType` tree carries the declared
structure, a `GoVal` tree carries the current values, and struct fields are
matched positionally. -/

/-- The declared type of a field or record, as the reflection walk sees it:
string, int (reflect.Int/Int64), bool, uint (a kind the default filler has
no case for), a struct with named fields (name, optional `default` tag,
field type), or a slice. -/
inductive GoType where
  | str : GoType
  | int : GoType
  | bool : GoType
  | uint : GoType
  | struct (fields : List (String × Option GoStr × GoType)) : GoType
  | slice (elem : GoType) : GoType
deriving Repr

/-- A field declaration: name, optional `default` tag value, type. -/
abbrev Fld := String × Option GoStr × GoType

/-- A runtime value matching a `GoType`. -/
inductive GoVal where
  | str (s : GoStr) : GoVal
  | int (n : Int) : GoVal
  | bool (b : Bool) : GoVal
  | uint (n : Nat) : GoVal
  | struct (vals : List GoVal) : GoVal
  | slice (elems : List GoVal) : GoVal
deriving Repr

instance : Inhabited GoVal := ⟨.str []⟩

/-- ASCII bytes of a Lean string literal. -/
def ascii (s : String) : GoStr := s.data.map (fun c => c.toNat)

/-- reflect.Value.String(): the contents for a string value; for any other
kind it does not panic but yields the "<kind Value>" placeholder. -/
def goString : GoVal → GoStr
  | .str s => s
  | .int _ => ascii ("<int Value>")
  | .bool _ => ascii ("<bool Value>")
  | .uint _ => ascii ("<uint Value>")
  | .struct _ => ascii ("<struct Value>")
  | .slice _ => ascii ("<slice Value>")

/-- reflect.Value.SetString: panics unless the value has string kind. -/
def setStr : GoVal → GoStr → Res GoVal
  | .str _, s => .ok (.str s)
  | _, _ => .crash

/-- reflect.Value.SetInt: panics unless the value has integer kind. -/
def setInt : GoVal → Int → Res GoVal
  | .int _, n => .ok (.int n)
  | _, _ => .crash

/-- reflect.Value.SetBool: panics unless the value has bool kind. -/
def setBool : GoVal → Bool → Res GoVal
  | .bool _, b => .ok (.bool b)
  | _, _ => .crash

def secSfx : String := "SecurePassword"

def pwSfx : String := "Password"

def versionName : String := "Version"

/-- Kind test used on slice elements: reflect.Kind() == reflect.Struct. -/
def isStructT : GoType → Bool
  | .struct _ => true
  | _ => false

/-- strings.HasSuffix, computed over the character list (kernel-reducible,
unlike String.endsWith). -/
def strHasSuffix (s sfx : String) : Bool := sfx.data.isSuffixOf s.data

/-- strings.TrimSuffix with a known suffix length: drop the last n
characters. -/
def strTrimLen (s : String) (n : Nat) : String :=
  String.mk (s.data.take (s.data.length - n))

/-- The sibling name of a `<Name>SecurePassword` field:
strings.TrimSuffix(name, "SecurePassword") + "Password". -/
def sibName (nm : String) : String := strTrimLen nm secSfx.data.length ++ pwSfx

/-- The typed errors LoadConfig and its helpers return, following the
i18n message keys used at each return site. -/
inductive GoErr where
  | readFailed : GoErr
  | configNoStruct : GoErr
  | failedDefaulting (e : GoErr) : GoErr
  | failedParsing : GoErr
  | failedChecking (e : GoErr) : GoErr
  | failedDecodePW (e : GoErr) : GoErr
  | failedWriting : GoErr
  | decryptFailed (pwName : String) : GoErr
  | defaultWrap (e : GoErr) : GoErr
  | defaultUnsupported : GoErr
  | atoiFailed : GoErr
  | parseBoolFailed : GoErr
  | hardwareIdFailed : GoErr
deriving DecidableEq, Repr

/-- State threaded through the seal walk: how many fresh nonces have been
drawn, and the accumulated change flag. -/
structure WalkSt where
  ctr : Nat
  changed : Bool
deriving DecidableEq, Repr

/-- strconv.Atoi: optional sign, decimal digits, 64-bit range; `none` on
anything else (LoadConfig treats the error as fatal for the load). -/
def goAtoi (s : GoStr) : Option Int :=
  match s with
  | [] => none
  | c :: rest =>
    let neg := c = 45
    let ds := if c = 45 ∨ c = 43 then rest else s
    if ds = [] then none
    else if ds.all (fun d => decide (48 ≤ d) && decide (d ≤ 57)) then
      let n : Nat := ds.foldl (fun a d => a * 10 + (d - 48)) 0
      let v : Int := if neg then -(n : Int) else (n : Int)
      if v < -9223372036854775808 ∨ 9223372036854775807 < v then none else some v
    else none

/-- strconv.ParseBool: exactly 1, t, T, TRUE, true, True, 0, f, F, FALSE,
false, False. -/
def goParseBool (s : GoStr) : Option Bool :=
  if s = [49] ∨ s = [116] ∨ s = [84] ∨ s = ascii ("TRUE") ∨ s = ascii ("true") ∨
      s = ascii ("True") then some true
  else if s = [48] ∨ s = [102] ∨ s = [70] ∨ s = ascii ("FALSE") ∨
      s = ascii ("false") ∨ s = ascii ("False") then some false
  else none

/-! ### updateVersionAndPasswords (sconfig.go lines 976-1038) -/

/-- Scalar-field handling of one field inside the seal walk: the Version
check (reflect.Value.Int panics when a field literally named Version is not
integer-kinded) followed by the password-pair handling (a field whose name
ends in SecurePassword looks up the first field named after the stripped
prefix + "Password"; when that sibling's string value is neither recognized
marker, its value is encrypted into this field with a fresh nonce, the
sibling is overwritten with the canonical marker, and the change flag is
set; without a sibling the field is skipped). -/
def uvpScalar (S : SState) (nF : Nat → GoStr) (version : Int) (allT : List Fld)
    (nm : String) (i : Nat) (vals : List GoVal) (w : WalkSt) :
    Res (List GoVal × WalkSt) :=
  (if nm = versionName then
    match vals.getD i default with
    | .int n =>
      if n ≠ version then Res.ok (vals.set i (.int version), WalkSt.mk w.ctr true)
      else .ok (vals, w)
    | _ => .crash
  else .ok (vals, w)).bind fun r =>
  if strHasSuffix nm secSfx then
    match List.findIdx? (fun (g : Fld) => g.1 == sibName nm) allT with
    | none => .ok r
    | some j =>
      let sv := goString (r.1.getD j default)
      if sv ≠ S.mk_de ∧ sv ≠ S.mk_en then
        (encrypt S.encryptionKey (nF r.2.ctr) sv).bind fun pw =>
        (setStr (r.1.getD i default) pw).bind fun nv =>
        (setStr (r.1.getD j default) S.mk_cur).bind fun nsib =>
        Res.ok ((r.1.set i nv).set j nsib, WalkSt.mk (r.2.ctr + 1) true)
      else .ok r
  else .ok r

mutual

/-- updateVersionAndPasswords: the seal walk. Recurses through nested
structs and through struct-typed slice elements; on every scalar field it
runs `uvpScalar`. A non-struct argument is returned unchanged (the Go
function returns nil immediately). The fresh nonces encrypt draws are
supplied by `nF` in drawing order. -/
def updateVersionAndPasswords (S : SState) (nF : Nat → GoStr) (version : Int) :
    GoType → GoVal → WalkSt → Res (GoVal × WalkSt)
  | .struct fT, .struct vals, w =>
    (uvpFields S nF version fT fT 0 vals w).bind fun r => .ok (.struct r.1, r.2)
  | .struct _, _, _ => .crash
  | _, v, w => .ok (v, w)
termination_by T _ _ => (sizeOf T, 0)

/-- The field loop of the seal walk: processes the remaining field
declarations, carrying the absolute index and the full value list (sibling
lookups and writes go through the full list, as the in-place mutation in Go
does). -/
def uvpFields (S : SState) (nF : Nat → GoStr) (version : Int) (allT : List Fld) :
    List Fld → Nat → List GoVal → WalkSt → Res (List GoVal × WalkSt)
  | [], _, vals, w => .ok (vals, w)
  | (nm, _, ty) :: rest, i, vals, w =>
    match ty with
    | .struct fT2 =>
      (updateVersionAndPasswords S nF version (.struct fT2) (vals.getD i default) w).bind
        fun r => uvpFields S nF version allT rest (i + 1) (vals.set i r.1) r.2
    | .slice elemT =>
      match vals.getD i default with
      | .slice elems =>
        (uvpSlice S nF version elemT elems w).bind
          fun r => uvpFields S nF version allT rest (i + 1) (vals.set i (.slice r.1)) r.2
      | _ => .crash
    | _ =>
      (uvpScalar S nF version allT nm i vals w).bind
        fun r => uvpFields S nF version allT rest (i + 1) r.1 r.2
termination_by todo _ _ _ => (sizeOf todo, 0)

/-- The slice loop of the seal walk: struct-kinded elements are walked
recursively, any other element kind is skipped. -/
def uvpSlice (S : SState) (nF : Nat → GoStr) (version : Int) (elemT : GoType) :
    List GoVal → WalkSt → Res (List GoVal × WalkSt)
  | [], w => .ok ([], w)
  | e :: es, w =>
    if isStructT elemT then
      (updateVersionAndPasswords S nF version elemT e w).bind fun r =>
      (uvpSlice S nF version elemT es r.2).bind fun r2 =>
      Res.ok (r.1 :: r2.1, r2.2)
    else
      (uvpSlice S nF version elemT es w).bind fun r2 => Res.ok (e :: r2.1, r2.2)
termination_by l _ => (sizeOf elemT, l.length + 1)

end

/-! ### decodePasswords (sconfig.go lines 1043-1088) -/

mutual

/-- decodePasswords: the decrypt walk. For every SecurePassword-suffixed
scalar field with a Password sibling, the field's string value is
decrypted; a decryption error is returned upward immediately (fail-fast),
otherwise the plaintext overwrites the sibling. The second component of the
result carries the returned error, if any. -/
def decodePasswords (S : SState) : GoType → GoVal → Res (GoVal × Option GoErr)
  | .struct fT, .struct vals =>
    (decFields S fT fT 0 vals).bind fun r => .ok (.struct r.1, r.2)
  | .struct _, _ => .crash
  | _, v => .ok (v, none)
termination_by T _ => (sizeOf T, 0)

/-- The field loop of the decrypt walk. -/
def decFields (S : SState) (allT : List Fld) :
    List Fld → Nat → List GoVal → Res (List GoVal × Option GoErr)
  | [], _, vals => .ok (vals, none)
  | (nm, _, ty) :: rest, i, vals =>
    match ty with
    | .struct fT2 =>
      (decodePasswords S (.struct fT2) (vals.getD i default)).bind fun r =>
        match r.2 with
        | some e => .ok (vals.set i r.1, some e)
        | none => decFields S allT rest (i + 1) (vals.set i r.1)
    | .slice elemT =>
      match vals.getD i default with
      | .slice elems =>
        (decSlice S elemT elems).bind fun r =>
          match r.2 with
          | some e => .ok (vals.set i (.slice r.1), some e)
          | none => decFields S allT rest (i + 1) (vals.set i (.slice r.1))
      | _ => .crash
    | _ =>
      if strHasSuffix nm secSfx then
        match List.findIdx? (fun (g : Fld) => g.1 == sibName nm) allT with
        | none => decFields S allT rest (i + 1) vals
        | some j =>
          (decrypt S.encryptionKey (goString (vals.getD i default))).bind fun pr =>
          if pr.2 then
            (setStr (vals.getD j default) pr.1).bind fun nsib =>
            decFields S allT rest (i + 1) (vals.set j nsib)
          else .ok (vals, some (.decryptFailed (strTrimLen nm secSfx.data.length)))
      else decFields S allT rest (i + 1) vals
termination_by todo _ _ => (sizeOf todo, 0)

/-- The slice loop of the decrypt walk. -/
def decSlice (S : SState) (elemT : GoType) : List GoVal → Res (List GoVal × Option GoErr)
  | [] => .ok ([], none)
  | e :: es =>
    if isStructT elemT then
      (decodePasswords S elemT e).bind fun r =>
        match r.2 with
        | some err => .ok (r.1 :: es, some err)
        | none => (decSlice S elemT es).bind fun r2 => Res.ok (r.1 :: r2.1, r2.2)
    else (decSlice S elemT es).bind fun r2 => Res.ok (e :: r2.1, r2.2)
termination_by l => (sizeOf elemT, l.length + 1)

end

/-! ### updateDefaultValues (sconfig.go lines 921-970) -/

mutual

/-- updateDefaultValues: walks the record and applies the `default` tag of
every scalar field, coercing the tag text by field kind: string verbatim,
integers through strconv.Atoi, bools through strconv.ParseBool; a tagged
field of any other kind yields the unsupported-type error. Errors from
nested structs are wrapped (config.default_error); slice errors propagate
unwrapped. -/
def updateDefaultValues : GoType → GoVal → Res (GoVal × Option GoErr)
  | .struct fT, .struct vals =>
    (udvFields fT 0 vals).bind fun r => .ok (.struct r.1, r.2)
  | .struct _, _ => .crash
  | _, v => .ok (v, none)
termination_by T _ => (sizeOf T, 0)

/-- The field loop of the default-value walk. -/
def udvFields : List Fld → Nat → List GoVal → Res (List GoVal × Option GoErr)
  | [], _, vals => .ok (vals, none)
  | (_, tag, ty) :: rest, i, vals =>
    match ty with
    | .struct fT2 =>
      (updateDefaultValues (.struct fT2) (vals.getD i default)).bind fun r =>
        match r.2 with
        | some e => .ok (vals.set i r.1, some (.defaultWrap e))
        | none => udvFields rest (i + 1) (vals.set i r.1)
    | .slice elemT =>
      match vals.getD i default with
      | .slice elems =>
        (udvSlice elemT elems).bind fun r =>
          match r.2 with
          | some e => .ok (vals.set i (.slice r.1), some e)
          | none => udvFields rest (i + 1) (vals.set i (.slice r.1))
      | _ => .crash
    | _ =>
      match tag with
      | none => udvFields rest (i + 1) vals
      | some dv =>
        match ty with
        | .str =>
          (setStr (vals.getD i default) dv).bind fun nv =>
            udvFields rest (i + 1) (vals.set i nv)
        | .int =>
          match goAtoi dv with
          | none => .ok (vals, some (.defaultWrap .atoiFailed))
          | some n =>
            (setInt (vals.getD i default) n).bind fun nv =>
              udvFields rest (i + 1) (vals.set i nv)
        | .bool =>
          match goParseBool dv with
          | none => .ok (vals, some (.defaultWrap .parseBoolFailed))
          | some b =>
            (setBool (vals.getD i default) b).bind fun nv =>
              udvFields rest (i + 1) (vals.set i nv)
        | _ => .ok (vals, some .defaultUnsupported)
termination_by todo _ _ => (sizeOf todo, 0)

/-- The slice loop of the default-value walk. -/
def udvSlice (elemT : GoType) : List GoVal → Res (List GoVal × Option GoErr)
  | [] => .ok ([], none)
  | e :: es =>
    if isStructT elemT then
      (updateDefaultValues elemT e).bind fun r =>
        match r.2 with
        | some err => .ok (r.1 :: es, some err)
        | none => (udvSlice elemT es).bind fun r2 => Res.ok (r.1 :: r2.1, r2.2)
    else (udvSlice elemT es).bind fun r2 => Res.ok (e :: r2.1, r2.2)
termination_by l => (sizeOf elemT, l.length + 1)

end

/-! ### LoadConfig (sconfig.go lines 801-872) -/

/-- Models encoding/json.Unmarshal for the input this development
exercises: the empty object (the bytes substituted for a missing file)
leaves the target record unchanged; any other input is conservatively
modelled as a parse failure. -/
def jsonUnmarshal (file : GoStr) (v : GoVal) : Option GoVal :=
  if file = [123, 125] then some v else none

/-- What a LoadConfig call produced: the final in-memory record, the record
value handed to json.MarshalIndent + os.WriteFile (`none` when the file was
not rewritten), whether the configuration file was read, and the returned
error (`none` on success). -/
structure LoadOut where
  record : GoVal
  written : Option GoVal
  didRead : Bool
  err : Option GoErr
deriving Repr

/-- Everything LoadConfig does after config_init and the file read, as a
function of the file bytes in use: the pointer-to-struct check, the default
values, unmarshalling, the seal walk, and the clean/normal write-and-decrypt
sequencing. Returns (record, written record, error). -/
def LoadConfigCore (st' : SState) (nF : Nat → GoStr) (isPtr : Bool)
    (T : GoType) (v : GoVal) (version : Int) (file : GoStr)
    (cleanConfig : Bool) : Res (GoVal × Option GoVal × Option GoErr) :=
  if ¬ (isPtr ∧ isStructT T) then
    .ok (v, none, some .configNoStruct)
  else
    (updateDefaultValues T v).bind fun d =>
    match d.2 with
    | some e => .ok (d.1, none, some (.failedDefaulting e))
    | none =>
      match jsonUnmarshal file d.1 with
      | none => .ok (d.1, none, some .failedParsing)
      | some v1 =>
        (updateVersionAndPasswords st' nF version T v1 ⟨0, false⟩).bind fun u =>
        if cleanConfig then
          (decodePasswords st' T u.1).bind fun dp =>
          match dp.2 with
          | some e => .ok (dp.1, none, some (.failedDecodePW e))
          | none => .ok (dp.1, some dp.1, none)
        else
          (decodePasswords st' T u.1).bind fun dp =>
          match dp.2 with
          | some e =>
            .ok (dp.1, if u.2.changed then some u.1 else none,
              some (.failedDecodePW e))
          | none =>
            .ok (dp.1, if u.2.changed then some u.1 else none, none)

/-- LoadConfig. The filesystem content at the path is `fs` (`none`: no such
file); the caller's argument is modelled as the triple isPtr / T / v
(isPtr false models passing a non-pointer value, and T, v describe the
pointed-to data); `hw` is the result of the hardware-ID function in use;
`nF` enumerates the fresh nonces encrypt draws. Mirrors the source order:
config_init, stat+read, pointer-to-struct check, default values, unmarshal,
seal walk, then for cleanConfig the decrypt walk followed by an
unconditional write, otherwise a write only when something changed followed
by the decrypt walk. -/
def LoadConfig (st : SState) (hw : Except Unit Nat) (nF : Nat → GoStr)
    (isPtr : Bool) (T : GoType) (v : GoVal) (version : Int)
    (fs : Option GoStr) (cleanConfig : Bool) : Res (SState × LoadOut) :=
  (config_init hw st).bind fun st' =>
  (LoadConfigCore st' nF isPtr T v version
      (match fs with | some f => f | none => [123, 125]) cleanConfig).bind fun r =>
  .ok (st', ⟨r.1, r.2.1, fs.isSome, r.2.2⟩)

/-- Claim C3: decrypting the empty string under the process key does not
return a DecryptionFailed error, it panics: the base64 error is discarded,
the decoded data is empty, and the slice expression data[:nonceSize] is out
of range. This contradicts the specified error behavior. -/
theorem decrypt_empty_crashes :
    decrypt (List.replicate 32 1) [] = Res.crash := by
  decide

/-! ### Concrete fixtures used by witnesses and counterexamples -/

/-- A fixed nonce supply for concrete runs. -/
def nF0 : Nat → GoStr := fun i => List.replicate 12 (i % 256)

/-- A concrete uninitialized process state. -/
def st0 : SState := ⟨false, [], [], [], [], Lang.en⟩

/-- A concrete already-initialized process state (as config_init leaves it
under the German locale with hardware identifier 5). -/
def st1 : SState :=
  ⟨true, keyFromID 5, markerOfLang .de, markerOfLang .en, markerOfLang .de, Lang.de⟩

/-! ### Claim C4 -/

/-- Claim C4 as stated, instantiated: a LoadConfig call whose hardware-ID
function collected zero identifiers returns the HardwareIdentificationFailed
typed error to the caller. -/
def c4Returns (st : SState) (fs : Option GoStr) : Prop :=
  match LoadConfig st (secure_config_getHardwareID []) nF0 true
      (.struct []) (.struct []) 1 fs false with
  | .ok (_, out) => out.err = some .hardwareIdFailed
  | _ => False

/-- Counterexample for claim C4: from a fresh (uninitialized) process state,
the zero-identifier failure is not returned as an error at all — config_init
calls log.Fatalf and the process dies. -/
theorem loadConfig_hw_failure_no_error : ¬ c4Returns st0 none := fun h => h

/-- Claim C4 (amended): when hardware identification collects zero
identifiers, getHardwareID does return the "no hardware identifiers found"
error, but config_init handles it by terminating the process through
log.Fatalf instead of returning it — so on a not-yet-initialized process
state every LoadConfig call with such a hardware-ID function ends in
process termination, never in a HardwareIdentificationFailed error return. -/
theorem loadConfig_hw_failure_fatal (st : SState) (nF : Nat → GoStr)
    (isPtr : Bool) (T : GoType) (v : GoVal) (version : Int)
    (fs : Option GoStr) (clean : Bool) (h : st.initialized = false) :
    LoadConfig st (secure_config_getHardwareID []) nF isPtr T v version fs clean =
      Res.fatal := by
  have h1 : secure_config_getHardwareID [] = Except.error () := rfl
  rw [LoadConfig.eq_def, h1, config_init.eq_def, if_neg (by simp [h])]
  rfl

/-- Witness for C4 at a concrete fresh state. -/
theorem loadConfig_hw_failure_fatal_witness :
    LoadConfig st0 (secure_config_getHardwareID []) nF0 true (.struct [])
      (.struct []) 1 none false = Res.fatal :=
  loadConfig_hw_failure_fatal st0 nF0 true (.struct []) (.struct []) 1 none false rfl

/-! ### Claim C10 -/

/-- Claim C10 as stated, instantiated: a LoadConfig call whose argument is
not a pointer to a struct returns the config-is-not-a-struct error without
reading, creating or writing the configuration file and without modifying
the argument. -/
def c10NoTouch (isPtr : Bool) (T : GoType) (v : GoVal) (fs : Option GoStr) : Prop :=
  match LoadConfig st1 (Except.ok 5) nF0 isPtr T v 1 fs false with
  | .ok (_, out) => out.err = some .configNoStruct ∧ out.written = none ∧
      out.record = v ∧ out.didRead = false
  | _ => False

/-- Counterexample for claim C10: with an existing configuration file and a
non-pointer argument, the type check does reject the argument, but only
after the file has been read — LoadConfig stats and reads the file before
inspecting the argument (sconfig.go:817-836). -/
theorem loadConfig_not_struct_reads_file :
    ¬ c10NoTouch false (.struct []) (.int 7) (some [104]) := fun h =>
  absurd h.2.2.2 (by decide)

/-- Claim C10 (amended): for every argument that is not a pointer to a
struct (a non-pointer value, or a pointer to a non-struct), LoadConfig
returns the config-is-not-a-struct typed error, does not create or write
the configuration file, and does not modify the argument; the file is
however statted and, when present, read (unused) before the check. -/
theorem loadConfig_not_struct_error (st : SState) (hw : Except Unit Nat)
    (nF : Nat → GoStr) (isPtr : Bool) (T : GoType) (v : GoVal) (version : Int)
    (fs : Option GoStr) (clean : Bool)
    (hst : st.initialized = true) (hT : ¬ (isPtr = true ∧ isStructT T = true)) :
    LoadConfig st hw nF isPtr T v version fs clean =
      Res.ok (st, ⟨v, none, fs.isSome, some .configNoStruct⟩) := by
  rw [LoadConfig.eq_def, config_init_noop st hw hst]
  show Res.bind _ _ = _
  rw [Res.bind, LoadConfigCore, if_pos hT]
  rfl

/-- Witness for C10: a pointer to a plain string (not a struct) is rejected
with the typed error, nothing written, the argument untouched. -/
theorem loadConfig_not_struct_error_witness :
    LoadConfig st1 (Except.ok 5) nF0 true GoType.str (.str [97]) 1 none false =
      Res.ok (st1, ⟨.str [97], none, false, some .configNoStruct⟩) :=
  loadConfig_not_struct_error st1 (Except.ok 5) nF0 true GoType.str (.str [97]) 1
    none false rfl (by decide)

/-! ### Claim C8 -/

/-- Forget the didRead observation of a LoadConfig result. -/
def eraseRead : Res (SState × LoadOut) →
    Res (SState × (GoVal × Option GoVal × Option GoErr))
  | .ok (s, o) => .ok (s, (o.record, o.written, o.err))
  | .crash => .crash
  | .fatal => .fatal

theorem eraseRead_assemble (x : Res SState)
    (y : SState → Res (GoVal × Option GoVal × Option GoErr)) (b1 b2 : Bool) :
    eraseRead (x.bind fun st' => (y st').bind fun r =>
      Res.ok (st', ⟨r.1, r.2.1, b1, r.2.2⟩)) =
    eraseRead (x.bind fun st' => (y st').bind fun r =>
      Res.ok (st', ⟨r.1, r.2.1, b2, r.2.2⟩)) := by
  cases x with
  | crash => rfl
  | fatal => rfl
  | ok st' =>
    show eraseRead ((y st').bind _) = eraseRead ((y st').bind _)
    cases y st' with
    | crash => rfl
    | fatal => rfl
    | ok r => rfl

theorem getD_set_ne {α : Type} [Inhabited α] (l : List α) (i j : Nat) (a : α)
    (h : i ≠ j) : (l.set i a).getD j default = l.getD j default := by
  simp [List.getD, List.getElem?_set_ne h]

theorem getD_set_self {α : Type} [Inhabited α] (l : List α) (i : Nat) (a : α)
    (h : i < l.length) : (l.set i a).getD i default = a := by
  simp [List.getD, List.getElem?_set_self h]

/-- Value-kind tests (reflect.Kind comparisons). -/
def isStrV : GoVal → Bool
  | .str _ => true
  | _ => false

def isIntV : GoVal → Bool
  | .int _ => true
  | _ => false

def isBoolV : GoVal → Bool
  | .bool _ => true
  | _ => false

def isSliceT : GoType → Bool
  | .slice _ => true
  | _ => false

/-- One field survives the default-value loop without an error or panic:
untagged scalar fields trivially, tagged fields when the tag text parses
for the field's kind and the value slot has that kind. -/
def scalarDefaultOK : Fld → GoVal → Bool
  | (_, none, ty), _ => !(isStructT ty || isSliceT ty)
  | (_, some _, .str), v => isStrV v
  | (_, some dv, .int), v => (goAtoi dv).isSome && isIntV v
  | (_, some dv, .bool), v => (goParseBool dv).isSome && isBoolV v
  | (_, some _, _), _ => false

/-- The coercion the spec prescribes for a default tag: string verbatim,
int through strconv.Atoi, bool through strconv.ParseBool. -/
def coerces (tag : GoStr) (ty : GoType) (out : GoVal) : Prop :=
  (ty = .str ∧ out = .str tag) ∨
  (ty = .int ∧ ∃ n, goAtoi tag = some n ∧ out = .int n) ∨
  (ty = .bool ∧ ∃ b, goParseBool tag = some b ∧ out = .bool b)

/-- Invert a successful Res.bind. -/
theorem bind_ok {α β : Type} {x : Res α} {f : α → Res β} {b : β}
    (h : x.bind f = Res.ok b) : ∃ a, x = Res.ok a ∧ f a = Res.ok b := by
  cases x with
  | ok a => exact ⟨a, rfl, h⟩
  | crash => exact absurd h (by simp [Res.bind])
  | fatal => exact absurd h (by simp [Res.bind])

/-- The default-value loop never touches positions below its index. -/
theorem udvFields_frame : ∀ (todo : List Fld) (i : Nat) (vals vals' : List GoVal)
    (e : Option GoErr), udvFields todo i vals = Res.ok (vals', e) →
    ∀ p, p < i → vals'.getD p default = vals.getD p default := by
  intro todo
  induction todo with
  | nil =>
    intro i vals vals' e h p hp
    rw [udvFields.eq_def] at h
    injection h with h
    injection h with h1 h2
    rw [← h1]
  | cons f rest ih =>
    intro i vals vals' e h p hp
    obtain ⟨nm, tag, ty⟩ := f
    rw [udvFields.eq_def] at h
    dsimp only at h
    split at h
    · obtain ⟨r, hr, h⟩ := bind_ok h
      split at h
      · injection h with h
        injection h with h1 h2
        rw [← h1, getD_set_ne _ _ _ _ (by omega)]
      · rw [ih _ _ _ _ h p (by omega), getD_set_ne _ _ _ _ (by omega)]
    · split at h
      · obtain ⟨r, hr, h⟩ := bind_ok h
        split at h
        · injection h with h
          injection h with h1 h2
          rw [← h1, getD_set_ne _ _ _ _ (by omega)]
        · rw [ih _ _ _ _ h p (by omega), getD_set_ne _ _ _ _ (by omega)]
      · exact absurd h (by simp)
    · split at h
      · exact ih _ _ _ _ h p (by omega)
      · split at h
        · obtain ⟨nv, hnv, h⟩ := bind_ok h
          rw [ih _ _ _ _ h p (by omega), getD_set_ne _ _ _ _ (by omega)]
        · split at h
          · injection h with h
            injection h with h1 h2
            rw [← h1]
          · obtain ⟨nv, hnv, h⟩ := bind_ok h
            rw [ih _ _ _ _ h p (by omega), getD_set_ne _ _ _ _ (by omega)]
        · split at h
          · injection h with h
            injection h with h1 h2
            rw [← h1]
          · obtain ⟨nv, hnv, h⟩ := bind_ok h
            rw [ih _ _ _ _ h p (by omega), getD_set_ne _ _ _ _ (by omega)]
        · injection h with h
          injection h with h1 h2
          rw [← h1]

/-- One successful step of the default-value loop: the loop continues on a
value list that agrees with the old one away from position i, and when the
field at i is a tagged scalar, position i now holds the coerced default. -/
theorem udvFields_step (nm0 : String) (tag0 : Option GoStr) (ty0 : GoType)
    (rest : List Fld) (i : Nat) (vals vals' : List GoVal)
    (h : udvFields ((nm0, tag0, ty0) :: rest) i vals = Res.ok (vals', none)) :
    ∃ vals2, udvFields rest (i + 1) vals2 = Res.ok (vals', none) ∧
      vals2.length = vals.length ∧
      (∀ p, p ≠ i → vals2.getD p default = vals.getD p default) ∧
      (∀ tag ty, tag0 = some tag → ty0 = ty →
        (ty = .str ∨ ty = .int ∨ ty = .bool) → i < vals.length →
        coerces tag ty (vals2.getD i default)) := by
  rw [udvFields.eq_def] at h
  dsimp only at h
  split at h
  · rename_i fT2
    obtain ⟨r, hr, h⟩ := bind_ok h
    split at h
    · injection h with h
      injection h with h1 h2
      exact absurd h2.symm (by simp)
    · refine ⟨vals.set i r.1, h, by simp, fun p hp => getD_set_ne _ _ _ _ (Ne.symm hp), ?_⟩
      intro tag ty htag hty0 hty _
      rcases hty with h1 | h1 | h1 <;> rw [h1] at hty0 <;> exact absurd hty0 (by simp)
  · rename_i elemT
    split at h
    · obtain ⟨r, hr, h⟩ := bind_ok h
      split at h
      · injection h with h
        injection h with h1 h2
        exact absurd h2.symm (by simp)
      · refine ⟨vals.set i (.slice r.1), h, by simp,
          fun p hp => getD_set_ne _ _ _ _ (Ne.symm hp), ?_⟩
        intro tag ty htag hty0 hty _
        rcases hty with h1 | h1 | h1 <;> rw [h1] at hty0 <;> exact absurd hty0 (by simp)
    · exact absurd h (by simp)
  · split at h
    · -- no tag: continue unchanged
      refine ⟨vals, h, rfl, fun p _ => rfl, ?_⟩
      intro tag ty htag
      simp at htag
    · rename_i dv0 dv
      split at h
      · -- string kind
        obtain ⟨nv, hnv, h⟩ := bind_ok h
        have hset : nv = GoVal.str dv := by
          cases hv : vals.getD i default <;> rw [hv] at hnv <;>
            simp only [setStr] at hnv <;> first
            | (injection hnv with hnv; exact hnv.symm)
            | exact absurd hnv (by simp)
        refine ⟨vals.set i nv, h, by simp,
          fun p hp => getD_set_ne _ _ _ _ (Ne.symm hp), ?_⟩
        intro tag ty htag hty0 _ hlt
        injection htag with htag
        rw [getD_set_self _ _ _ hlt, hset]
        exact Or.inl ⟨hty0.symm, by rw [htag]⟩
      · -- int kind
        split at h
        · injection h with h
          injection h with h1 h2
          exact absurd h2.symm (by simp)
        · rename_i n hn
          obtain ⟨nv, hnv, h⟩ := bind_ok h
          have hset : nv = GoVal.int n := by
            cases hv : vals.getD i default <;> rw [hv] at hnv <;>
              simp only [setInt] at hnv <;> first
              | (injection hnv with hnv; exact hnv.symm)
              | exact absurd hnv (by simp)
          refine ⟨vals.set i nv, h, by simp,
            fun p hp => getD_set_ne _ _ _ _ (Ne.symm hp), ?_⟩
          intro tag ty htag hty0 _ hlt
          injection htag with htag
          rw [getD_set_self _ _ _ hlt, hset]
          exact Or.inr (Or.inl ⟨hty0.symm, n, by rw [← htag]; exact hn, rfl⟩)
      · -- bool kind
        split at h
        · injection h with h
          injection h with h1 h2
          exact absurd h2.symm (by simp)
        · rename_i b hb
          obtain ⟨nv, hnv, h⟩ := bind_ok h
          have hset : nv = GoVal.bool b := by
            cases hv : vals.getD i default <;> rw [hv] at hnv <;>
              simp only [setBool] at hnv <;> first
              | (injection hnv with hnv; exact hnv.symm)
              | exact absurd hnv (by simp)
          refine ⟨vals.set i nv, h, by simp,
            fun p hp => getD_set_ne _ _ _ _ (Ne.symm hp), ?_⟩
          intro tag ty htag hty0 _ hlt
          injection htag with htag
          rw [getD_set_self _ _ _ hlt, hset]
          exact Or.inr (Or.inr ⟨hty0.symm, b, by rw [← htag]; exact hb, rfl⟩)
      · -- any other kind with a tag errors: contradiction
        injection h with h
        injection h with h1 h2
        exact absurd h2.symm (by simp)

/-- When the default-value loop succeeds, every tagged scalar field ends up
holding its coerced default. -/
theorem udvFields_defaults : ∀ (todo : List Fld) (i : Nat) (vals vals' : List GoVal),
    udvFields todo i vals = Res.ok (vals', none) →
    i + todo.length ≤ vals.length →
    ∀ k nm tag ty, todo.get? k = some (nm, some tag, ty) →
    (ty = .str ∨ ty = .int ∨ ty = .bool) →
    coerces tag ty (vals'.getD (i + k) default) := by
  intro todo
  induction todo with
  | nil =>
    intro i vals vals' h hlen k nm tag ty hk
    simp at hk
  | cons f rest ih =>
    intro i vals vals' h hlen k nm tag ty hk hty
    obtain ⟨nm0, tag0, ty0⟩ := f
    obtain ⟨vals2, h2, hlen2, hfr2, hco⟩ := udvFields_step nm0 tag0 ty0 rest i vals vals' h
    cases k with
    | zero =>
      simp only [List.get?_cons_zero] at hk
      injection hk with hk
      injection hk with hk1 hk
      injection hk with hk2 hk3
      have hfr := udvFields_frame rest (i + 1) _ _ _ h2 i (by omega)
      rw [Nat.add_zero, hfr]
      exact hco tag ty hk2 hk3 hty (by simp at hlen; omega)
    | succ k' =>
      have hi : i + (k' + 1) = i + 1 + k' := by omega
      rw [hi]
      exact ih (i + 1) vals2 _ h2 (by simp at hlen; omega) k' nm tag ty
        (by simpa using hk) hty

/-- When some field carries a default tag on an unsupported kind and the
fields before it all coerce cleanly, the default-value loop fails with the
unsupported-type error. -/
theorem udvFields_unsupported : ∀ (todo : List Fld) (i : Nat) (vals : List GoVal)
    (k : Nat) (nm : String) (tag : GoStr),
    todo.get? k = some (nm, some tag, GoType.uint) →
    (∀ j f, j < k → todo.get? j = some f →
      scalarDefaultOK f (vals.getD (i + j) default) = true) →
    ∃ vals2, udvFields todo i vals = Res.ok (vals2, some .defaultUnsupported) := by
  intro todo
  induction todo with
  | nil =>
    intro i vals k nm tag hk
    simp at hk
  | cons f rest ih =>
    intro i vals k nm tag hk hok
    obtain ⟨nm0, tag0, ty0⟩ := f
    cases k with
    | zero =>
      simp only [List.get?_cons_zero] at hk
      injection hk with hk
      injection hk with hk1 hk
      injection hk with hk2 hk3
      subst hk2
      subst hk3
      rw [udvFields.eq_def]
      exact ⟨vals, rfl⟩
    | succ k' =>
      have h0 := hok 0 (nm0, tag0, ty0) (by omega) (by simp)
      rw [Nat.add_zero] at h0
      have hk' : rest.get? k' = some (nm, some tag, GoType.uint) := by simpa using hk
      have hok' : ∀ (vals2 : List GoVal),
          (∀ p, p ≠ i → vals2.getD p default = vals.getD p default) →
          ∀ j f, j < k' → rest.get? j = some f →
          scalarDefaultOK f (vals2.getD (i + 1 + j) default) = true := by
        intro vals2 hfr j f hj hf
        rw [hfr (i + 1 + j) (by omega)]
        have : i + 1 + j = i + (j + 1) := by omega
        rw [this]
        exact hok (j + 1) f (by omega) (by simpa using hf)
      cases tag0 with
      | none =>
        have hty : ¬ isStructT ty0 ∧ ¬ isSliceT ty0 := by
          simp [scalarDefaultOK] at h0
          exact ⟨by simpa using h0.1, by simpa using h0.2⟩
        cases ty0 with
        | struct fT2 => exact absurd rfl hty.1
        | slice elemT => exact absurd rfl hty.2
        | str =>
          rw [udvFields.eq_def]
          exact ih (i + 1) vals k' nm tag hk' (hok' vals (fun p _ => rfl))
        | int =>
          rw [udvFields.eq_def]
          exact ih (i + 1) vals k' nm tag hk' (hok' vals (fun p _ => rfl))
        | bool =>
          rw [udvFields.eq_def]
          exact ih (i + 1) vals k' nm tag hk' (hok' vals (fun p _ => rfl))
        | uint =>
          rw [udvFields.eq_def]
          exact ih (i + 1) vals k' nm tag hk' (hok' vals (fun p _ => rfl))
      | some dv =>
        cases ty0 with
        | struct fT2 => simp [scalarDefaultOK] at h0
        | slice elemT => simp [scalarDefaultOK] at h0
        | uint => simp [scalarDefaultOK] at h0
        | str =>
          obtain ⟨s, hs⟩ : ∃ s, vals.getD i default = GoVal.str s := by
            simp only [scalarDefaultOK] at h0
            cases hv : vals.getD i default <;> rw [hv] at h0 <;>
              simp [isStrV] at h0 <;> exact ⟨_, rfl⟩
          rw [udvFields.eq_def]
          dsimp only
          rw [hs]
          dsimp only [setStr, Res.bind]
          exact ih (i + 1) _ k' nm tag hk'
            (hok' _ (fun p hp => getD_set_ne _ _ _ _ (Ne.symm hp)))
        | int =>
          simp only [scalarDefaultOK, Bool.and_eq_true] at h0
          obtain ⟨n, hn⟩ := Option.isSome_iff_exists.mp h0.1
          obtain ⟨m, hm⟩ : ∃ m, vals.getD i default = GoVal.int m := by
            cases hv : vals.getD i default <;> rw [hv] at h0 <;>
              simp [isIntV] at h0 <;> exact ⟨_, rfl⟩
          rw [udvFields.eq_def]
          dsimp only
          rw [hn, hm]
          dsimp only [setInt, Res.bind]
          exact ih (i + 1) _ k' nm tag hk'
            (hok' _ (fun p hp => getD_set_ne _ _ _ _ (Ne.symm hp)))
        | bool =>
          simp only [scalarDefaultOK, Bool.and_eq_true] at h0
          obtain ⟨b, hb⟩ := Option.isSome_iff_exists.mp h0.1
          obtain ⟨c, hc⟩ : ∃ c, vals.getD i default = GoVal.bool c := by
            cases hv : vals.getD i default <;> rw [hv] at h0 <;>
              simp [isBoolV] at h0 <;> exact ⟨_, rfl⟩
          rw [udvFields.eq_def]
          dsimp only
          rw [hb, hc]
          dsimp only [setBool, Res.bind]
          exact ih (i + 1) _ k' nm tag hk'
            (hok' _ (fun p hp => getD_set_ne _ _ _ _ (Ne.symm hp)))

/-- Claim C8: (1) when the file at the given path does not exist, LoadConfig
behaves exactly as if the file held the empty record (the empty JSON
object) — the outcome, final record, written record and returned error all
agree, only the read observation differs; (2) whenever the default-value
walk succeeds, every top-level field carrying a default annotation holds its
default with the correct coercion — string verbatim, integer via strconv
Atoi, boolean via strconv ParseBool; (3) a field whose annotated type is
none of these (uint) makes the walk fail with the unsupported-type error. -/
theorem loadConfig_missing_file_defaults :
    (∀ (st : SState) (hw : Except Unit Nat) (nF : Nat → GoStr) (isPtr : Bool)
      (T : GoType) (v : GoVal) (version : Int) (clean : Bool),
      eraseRead (LoadConfig st hw nF isPtr T v version none clean) =
      eraseRead (LoadConfig st hw nF isPtr T v version (some [123, 125]) clean)) ∧
    (∀ (fT : List Fld) (vals : List GoVal) (v2 : GoVal),
      updateDefaultValues (.struct fT) (.struct vals) = Res.ok (v2, none) →
      fT.length ≤ vals.length →
      ∀ k nm tag ty, fT.get? k = some (nm, some tag, ty) →
      (ty = .str ∨ ty = .int ∨ ty = .bool) →
      ∃ vals', v2 = .struct vals' ∧ coerces tag ty (vals'.getD k default)) ∧
    (∀ (fT : List Fld) (vals : List GoVal) (k : Nat) (nm : String) (tag : GoStr),
      fT.get? k = some (nm, some tag, GoType.uint) →
      (∀ j f, j < k → fT.get? j = some f →
        scalarDefaultOK f (vals.getD j default) = true) →
      ∃ v2, updateDefaultValues (.struct fT) (.struct vals) =
        Res.ok (v2, some .defaultUnsupported)) := by
  refine ⟨?_, ?_, ?_⟩
  · intro st hw nF isPtr T v version clean
    exact eraseRead_assemble (config_init hw st)
      (fun st' => LoadConfigCore st' nF isPtr T v version [123, 125] clean)
      false true
  · intro fT vals v2 h hlen k nm tag ty hk hty
    rw [updateDefaultValues.eq_def] at h
    dsimp only at h
    obtain ⟨r, hr, h⟩ := bind_ok h
    injection h with h
    injection h with h1 h2
    obtain ⟨r1, r2⟩ := r
    simp only at h1 h2
    subst h2
    refine ⟨r1, h1.symm, ?_⟩
    have := udvFields_defaults fT 0 vals r1 hr (by omega) k nm tag ty hk hty
    simpa using this
  · intro fT vals k nm tag hk hok
    obtain ⟨vals2, h2⟩ := udvFields_unsupported fT 0 vals k nm tag hk
      (by intro j f hj hf; simpa using hok j f hj hf)
    refine ⟨.struct vals2, ?_⟩
    rw [updateDefaultValues.eq_def]
    dsimp only
    rw [h2]
    rfl

/-- Witness for C8: a missing file behaves like the empty object; a record
with an int field tagged default 8080 receives 8080; a uint field with a
default tag makes the walk fail with the unsupported-type error. -/
theorem loadConfig_missing_file_defaults_witness :
    (eraseRead (LoadConfig st1 (Except.ok 5) nF0 true (.struct []) (.struct [])
        1 none false) =
      eraseRead (LoadConfig st1 (Except.ok 5) nF0 true (.struct []) (.struct [])
        1 (some [123, 125]) false)) ∧
    (∃ vals', GoVal.struct [.int 8080] = GoVal.struct vals' ∧
      coerces [56, 48, 56, 48] GoType.int (vals'.getD 0 default)) ∧
    (∃ v2, updateDefaultValues (.struct [(String.mk [Char.ofNat 70],
        some [120], GoType.uint)]) (.struct [.uint 0]) =
      Res.ok (v2, some .defaultUnsupported)) := by
  refine ⟨loadConfig_missing_file_defaults.1 st1 (Except.ok 5) nF0 true
      (.struct []) (.struct []) 1 false, ?_, ?_⟩
  · refine loadConfig_missing_file_defaults.2.1
      [(String.mk [Char.ofNat 80], some [56, 48, 56, 48], GoType.int)]
      [.int 0] (GoVal.struct [.int 8080]) ?_ (by decide) 0 (String.mk [Char.ofNat 80])
      [56, 48, 56, 48] GoType.int rfl (by simp)
    simp only [updateDefaultValues, udvFields]
    rfl
  · exact loadConfig_missing_file_defaults.2.2
      [(String.mk [Char.ofNat 70], some [120], GoType.uint)] [.uint 0] 0
      (String.mk [Char.ofNat 70]) [120] rfl
      (by intro j f hj hf; omega)

/-! ### Step facts about the seal walk's scalar handling -/

/-- A marker-valued pair is left completely alone by its own step: when the
sibling's string value already equals one of the two recognized markers,
neither field changes, no nonce is drawn and the change flag is untouched. -/
theorem uvpScalar_marker_noop (S : SState) (nF : Nat → GoStr) (ver : Int)
    (allT : List Fld) (nm : String) (i : Nat) (vals : List GoVal) (w : WalkSt)
    (j : Nat) (hnv : nm ≠ versionName)
    (hj : List.findIdx? (fun (g : Fld) => g.1 == sibName nm) allT = some j)
    (hmk : goString (vals.getD j default) = S.mk_de ∨
      goString (vals.getD j default) = S.mk_en) :
    uvpScalar S nF ver allT nm i vals w = Res.ok (vals, w) := by
  rw [uvpScalar, if_neg hnv]
  show Res.bind _ _ = _
  rw [Res.bind]
  simp only [List.getD, List.get?_eq_getElem?] at hmk
  split
  · rw [hj]
    dsimp only
    rcases hmk with hmk | hmk
    · rw [if_neg (by simp [hmk])]
    · rw [if_neg (by simp [hmk])]
  · rfl

/-- A scalar field that is neither the Version field nor SecurePassword-
suffixed is skipped entirely. -/
theorem uvpScalar_skip (S : SState) (nF : Nat → GoStr) (ver : Int)
    (allT : List Fld) (nm : String) (i : Nat) (vals : List GoVal) (w : WalkSt)
    (hnv : nm ≠ versionName) (hns : strHasSuffix nm secSfx = false) :
    uvpScalar S nF ver allT nm i vals w = Res.ok (vals, w) := by
  rw [uvpScalar, if_neg hnv]
  show Res.bind _ _ = _
  rw [Res.bind, if_neg (by simp [hns])]

/-- An orphaned SecurePassword field (no sibling) is skipped. -/
theorem uvpScalar_orphan (S : SState) (nF : Nat → GoStr) (ver : Int)
    (allT : List Fld) (nm : String) (i : Nat) (vals : List GoVal) (w : WalkSt)
    (hnv : nm ≠ versionName)
    (hj : List.findIdx? (fun (g : Fld) => g.1 == sibName nm) allT = none) :
    uvpScalar S nF ver allT nm i vals w = Res.ok (vals, w) := by
  rw [uvpScalar, if_neg hnv]
  show Res.bind _ _ = _
  rw [Res.bind]
  split
  · rw [hj]
  · rfl

/-- The Version step on an integer field holding a different value: the
field is set to the expected version and the change flag raised. -/
theorem uvpScalar_version_set (S : SState) (nF : Nat → GoStr) (ver : Int)
    (allT : List Fld) (i : Nat) (vals : List GoVal) (w : WalkSt) (n : Int)
    (hv : vals.getD i default = GoVal.int n) (hne : n ≠ ver) :
    uvpScalar S nF ver allT versionName i vals w =
      Res.ok (vals.set i (.int ver), ⟨w.ctr, true⟩) := by
  rw [uvpScalar, if_pos rfl, hv]
  show Res.bind (if n ≠ ver then _ else _) _ = _
  rw [if_pos hne, Res.bind, if_neg (by decide)]

/-- The Version step on an integer field already holding the expected
version: nothing happens. -/
theorem uvpScalar_version_eq (S : SState) (nF : Nat → GoStr) (ver : Int)
    (allT : List Fld) (i : Nat) (vals : List GoVal) (w : WalkSt)
    (hv : vals.getD i default = GoVal.int ver) :
    uvpScalar S nF ver allT versionName i vals w = Res.ok (vals, w) := by
  rw [uvpScalar, if_pos rfl, hv]
  show Res.bind (if ver ≠ ver then _ else _) _ = _
  rw [if_neg (by simp), Res.bind, if_neg (by decide)]

/-- The sealing step on a well-formed pair with new plaintext: the sibling's
value is encrypted with the next fresh nonce into this field, the sibling is
overwritten with the canonical marker, the nonce counter advances and the
change flag is raised. -/
theorem uvpScalar_seal (S : SState) (nF : Nat → GoStr) (ver : Int)
    (allT : List Fld) (nm : String) (i : Nat) (vals : List GoVal) (w : WalkSt)
    (j : Nat) (si sj : GoStr) (hnv : nm ≠ versionName)
    (hsec : strHasSuffix nm secSfx = true)
    (hj : List.findIdx? (fun (g : Fld) => g.1 == sibName nm) allT = some j)
    (hvi : vals.getD i default = GoVal.str si)
    (hvj : vals.getD j default = GoVal.str sj)
    (hmk : sj ≠ S.mk_de ∧ sj ≠ S.mk_en)
    (hkey : validKeyLen S.encryptionKey)
    (hnl : (nF w.ctr).length = nonceSize) :
    uvpScalar S nF ver allT nm i vals w =
      Res.ok ((vals.set i
          (.str (b64encode (nF w.ctr ++ gcmSeal S.encryptionKey (nF w.ctr) sj)))).set j
          (.str S.mk_cur),
        ⟨w.ctr + 1, true⟩) := by
  rw [uvpScalar, if_neg hnv]
  show Res.bind _ _ = _
  rw [Res.bind, if_pos hsec, hj]
  dsimp only
  rw [hvj]
  show (if (goString (GoVal.str sj) ≠ S.mk_de ∧ goString (GoVal.str sj) ≠ S.mk_en)
      then _ else _) = _
  rw [if_pos (by simpa [goString] using hmk)]
  rw [encrypt, if_neg (not_not_intro hkey), if_neg (by rw [hnl]; simp)]
  simp only [Res.bind, hvi, hvj, setStr, goString]

/-- The scalar step writes only at its own position and at the sibling
position its name designates, and it never lowers the change flag. -/
theorem uvpScalar_frame (S : SState) (nF : Nat → GoStr) (ver : Int)
    (allT : List Fld) (nm : String) (i : Nat) (vals : List GoVal) (w : WalkSt)
    (vals2 : List GoVal) (w2 : WalkSt)
    (h : uvpScalar S nF ver allT nm i vals w = Res.ok (vals2, w2)) (p : Nat)
    (hpi : p ≠ i)
    (hpj : ∀ j, List.findIdx? (fun (g : Fld) => g.1 == sibName nm) allT = some j →
      p ≠ j) :
    vals2.getD p default = vals.getD p default ∧
      (w.changed = true → w2.changed = true) := by
  rw [uvpScalar] at h
  obtain ⟨r, hr, h⟩ := bind_ok h
  obtain ⟨r1, r2⟩ := r
  have hrf : r1.getD p default = vals.getD p default ∧
      (w.changed = true → r2.changed = true) := by
    split at hr
    · split at hr
      · split at hr
        · injection hr with hr
          injection hr with hrl hrr
          rw [← hrl, getD_set_ne _ _ _ _ (Ne.symm hpi)]
          exact ⟨rfl, fun _ => by rw [← hrr]⟩
        · injection hr with hr
          injection hr with hrl hrr
          rw [← hrl, ← hrr]
          exact ⟨rfl, fun hc => hc⟩
      all_goals exact absurd hr (by simp)
    · injection hr with hr
      injection hr with hrl hrr
      rw [← hrl, ← hrr]
      exact ⟨rfl, fun hc => hc⟩
  split at h
  · split at h
    · -- no sibling
      injection h with h
      injection h with h1 h2
      rw [← h1, ← h2]
      exact hrf
    · -- sibling found
      rename_i j hj2
      dsimp only at h
      split at h
      · obtain ⟨pw, hpw, h⟩ := bind_ok h
        obtain ⟨nv, hnv2, h⟩ := bind_ok h
        obtain ⟨nsib, hnsib, h⟩ := bind_ok h
        injection h with h
        injection h with h1 h2
        rw [← h1, getD_set_ne _ _ _ _ (Ne.symm (hpj j hj2)),
          getD_set_ne _ _ _ _ (Ne.symm hpi)]
        exact ⟨hrf.1, fun _ => by rw [← h2]⟩
      · injection h with h
        injection h with h1 h2
        rw [← h1, ← h2]
        exact hrf
  · injection h with h
    injection h with h1 h2
    rw [← h1, ← h2]
    exact hrf

/-- The scalar step never lowers the change flag. -/
theorem uvpScalar_mono (S : SState) (nF : Nat → GoStr) (ver : Int)
    (allT : List Fld) (nm : String) (i : Nat) (vals : List GoVal) (w : WalkSt)
    (vals2 : List GoVal) (w2 : WalkSt)
    (h : uvpScalar S nF ver allT nm i vals w = Res.ok (vals2, w2))
    (hc : w.changed = true) : w2.changed = true := by
  rw [uvpScalar] at h
  obtain ⟨r, hr, h⟩ := bind_ok h
  obtain ⟨r1, r2⟩ := r
  have hrf : r2.changed = true := by
    split at hr
    · split at hr
      · split at hr
        · injection hr with hr
          injection hr with hrl hrr
          rw [← hrr]
        · injection hr with hr
          injection hr with hrl hrr
          rw [← hrr]
          exact hc
      all_goals exact absurd hr (by simp)
    · injection hr with hr
      injection hr with hrl hrr
      rw [← hrr]
      exact hc
  split at h
  · split at h
    · injection h with h
      injection h with h1 h2
      rw [← h2]
      exact hrf
    · dsimp only at h
      split at h
      · obtain ⟨pw, hpw, h⟩ := bind_ok h
        obtain ⟨nv, hnv2, h⟩ := bind_ok h
        obtain ⟨nsib, hnsib, h⟩ := bind_ok h
        injection h with h
        injection h with h1 h2
        rw [← h2]
      · injection h with h
        injection h with h1 h2
        rw [← h2]
        exact hrf
  · injection h with h
    injection h with h1 h2
    rw [← h2]
    exact hrf

/-- No part of the seal walk ever lowers the change flag. -/
theorem uvp_changed_mono (S : SState) (nF : Nat → GoStr) (ver : Int) :
    (∀ (T : GoType) (v : GoVal) (w : WalkSt) (v' : GoVal) (w' : WalkSt),
      updateVersionAndPasswords S nF ver T v w = Res.ok (v', w') →
      w.changed = true → w'.changed = true) ∧
    (∀ (allT : List Fld) (todo : List Fld) (i : Nat) (vals : List GoVal)
      (w : WalkSt) (vals' : List GoVal) (w' : WalkSt),
      uvpFields S nF ver allT todo i vals w = Res.ok (vals', w') →
      w.changed = true → w'.changed = true) ∧
    (∀ (elemT : GoType) (l : List GoVal) (w : WalkSt) (l' : List GoVal)
      (w' : WalkSt),
      uvpSlice S nF ver elemT l w = Res.ok (l', w') →
      w.changed = true → w'.changed = true) := by
  refine updateVersionAndPasswords.mutual_induct S nF ver
    (fun T v w => ∀ v' w', updateVersionAndPasswords S nF ver T v w = Res.ok (v', w') →
      w.changed = true → w'.changed = true)
    (fun allT todo i vals w => ∀ vals' w',
      uvpFields S nF ver allT todo i vals w = Res.ok (vals', w') →
      w.changed = true → w'.changed = true)
    (fun elemT l w => ∀ l' w', uvpSlice S nF ver elemT l w = Res.ok (l', w') →
      w.changed = true → w'.changed = true)
    ?_ ?_ ?_ ?_ ?_ ?_ ?_ ?_ ?_ ?_ ?_
  · intro fT vals w ih v' w' h hc
    rw [updateVersionAndPasswords.eq_def] at h
    dsimp only at h
    obtain ⟨r, hr, h⟩ := bind_ok h
    obtain ⟨r1, r2⟩ := r
    injection h with h
    injection h with h1 h2
    rw [← h2]
    exact ih r1 r2 hr hc
  · intro fields x x1 hx v' w' h hc
    rw [updateVersionAndPasswords.eq_def] at h
    split at h
    · exact (hx _ rfl).elim
    · exact absurd h (by simp)
    · rename_i hne _
      exact (hne fields rfl).elim
  · intro T v w hTv hT v' w' h hc
    rw [updateVersionAndPasswords.eq_def] at h
    split at h
    · rename_i fT vals
      exact (hTv fT vals rfl rfl).elim
    · rename_i fT _
      exact (hT fT rfl).elim
    · injection h with h
      injection h with h1 h2
      rw [← h2]
      exact hc
  · intro allT i vals w vals' w' h hc
    rw [uvpFields.eq_def] at h
    injection h with h
    injection h with h1 h2
    rw [← h2]
    exact hc
  · intro allT nm tag rest i vals w fT2 ih1 ih2 vals' w' h hc
    rw [uvpFields.eq_def] at h
    dsimp only at h
    obtain ⟨r, hr, h⟩ := bind_ok h
    obtain ⟨r1, r2⟩ := r
    exact ih2 (r1, r2) vals' w' h (ih1 r1 r2 hr hc)
  · intro allT nm tag rest i vals w elemT elems heq ih3 ih2 vals' w' h hc
    rw [uvpFields.eq_def] at h
    dsimp only at h
    rw [heq] at h
    dsimp only at h
    obtain ⟨r, hr, h⟩ := bind_ok h
    obtain ⟨r1, r2⟩ := r
    exact ih2 (r1, r2) vals' w' h (ih3 r1 r2 hr hc)
  · intro allT nm tag rest i vals w elemT hne vals' w' h hc
    rw [uvpFields.eq_def] at h
    dsimp only at h
    split at h
    · rename_i elems heq
      exact (hne elems heq).elim
    · exact absurd h (by simp)
  · intro allT nm tag ty rest i vals w hs hl ih2 vals' w' h hc
    rw [uvpFields.eq_def] at h
    dsimp only at h
    split at h
    · rename_i fT2
      exact (hs fT2 rfl).elim
    · rename_i elemT
      exact (hl elemT rfl).elim
    · obtain ⟨r, hr, h⟩ := bind_ok h
      obtain ⟨r1, r2⟩ := r
      exact ih2 (r1, r2) vals' w' h (uvpScalar_mono S nF ver allT nm i vals w r1 r2 hr hc)
  · intro elemT w l' w' h hc
    rw [uvpSlice.eq_def] at h
    injection h with h
    injection h with h1 h2
    rw [← h2]
    exact hc
  · intro elemT e es w hS ih1 ih3 l' w' h hc
    rw [uvpSlice.eq_def] at h
    dsimp only at h
    rw [if_pos hS] at h
    obtain ⟨r, hr, h⟩ := bind_ok h
    obtain ⟨r1, r2⟩ := r
    obtain ⟨r2', hr2, h⟩ := bind_ok h
    obtain ⟨l2, w2⟩ := r2'
    injection h with h
    injection h with h1 h2
    rw [← h2]
    exact ih3 (r1, r2) l2 w2 hr2 (ih1 r1 r2 hr hc)
  · intro elemT e es w hS ih3 l' w' h hc
    rw [uvpSlice.eq_def] at h
    dsimp only at h
    rw [if_neg hS] at h
    obtain ⟨r2', hr2, h⟩ := bind_ok h
    obtain ⟨l2, w2⟩ := r2'
    injection h with h
    injection h with h1 h2
    rw [← h2]
    exact ih3 l2 w2 hr2 hc

/-- Setting a position to the value it already holds is a no-op (also when
the index is out of range, where `set` does nothing anyway). -/
theorem set_getD_self (l : List GoVal) (i : Nat) (x : GoVal)
    (h : l.getD i default = x) : l.set i x = l := by
  induction l generalizing i with
  | nil => rfl
  | cons a t ih =>
    cases i with
    | zero =>
      simp only [List.getD_cons_zero] at h
      rw [List.set_cons_zero, h]
    | succ n =>
      simp only [List.getD_cons_succ] at h
      rw [List.set_cons_succ, ih n h]

/-- Stability of one scalar field under the seal walk, read off the step's
branches: a field named Version must hold exactly the expected version, and
a SecurePassword-suffixed field with a sibling requires the sibling to hold
one of the two recognized markers. Every other scalar field is stable. -/
def stepStable (S : SState) (ver : Int) (allT : List Fld) (nm : String)
    (i : Nat) (vals : List GoVal) : Bool :=
  (if nm = versionName then
    match vals.getD i default with
    | .int n => n == ver
    | _ => false
  else true) &&
  (if strHasSuffix nm secSfx then
    match List.findIdx? (fun (g : Fld) => g.1 == sibName nm) allT with
    | none => true
    | some j =>
      (goString (vals.getD j default) == S.mk_de) ||
        (goString (vals.getD j default) == S.mk_en)
  else true)

mutual

/-- A record is seal-stable when every scalar field it (recursively)
contains satisfies `stepStable`: then the seal walk leaves it untouched. -/
def sealStable (S : SState) (ver : Int) : GoType → GoVal → Bool
  | .struct fT, .struct vals => sealStableF S ver fT fT 0 vals
  | .struct _, _ => false
  | _, _ => true
termination_by T _ => (sizeOf T, 0)

/-- Field-loop companion of `sealStable`. -/
def sealStableF (S : SState) (ver : Int) (allT : List Fld) :
    List Fld → Nat → List GoVal → Bool
  | [], _, _ => true
  | (nm, _, ty) :: rest, i, vals =>
    (match ty with
     | .struct fT2 => sealStable S ver (.struct fT2) (vals.getD i default)
     | .slice elemT =>
       match vals.getD i default with
       | .slice elems => sealStableS S ver elemT elems
       | _ => false
     | _ => stepStable S ver allT nm i vals) &&
    sealStableF S ver allT rest (i + 1) vals
termination_by todo _ _ => (sizeOf todo, 0)

/-- Slice companion of `sealStable`. -/
def sealStableS (S : SState) (ver : Int) (elemT : GoType) :
    List GoVal → Bool
  | [] => true
  | e :: es =>
    (if isStructT elemT then sealStable S ver elemT e else true) &&
    sealStableS S ver elemT es
termination_by l => (sizeOf elemT, l.length + 1)

end

/-- A stable scalar field is left untouched by the scalar step. -/
theorem uvpScalar_stable_id (S : SState) (nF : Nat → GoStr) (ver : Int)
    (allT : List Fld) (nm : String) (i : Nat) (vals : List GoVal) (w : WalkSt)
    (h : stepStable S ver allT nm i vals = true) :
    uvpScalar S nF ver allT nm i vals w = Res.ok (vals, w) := by
  rw [stepStable, Bool.and_eq_true] at h
  obtain ⟨h1, h2⟩ := h
  by_cases hv : nm = versionName
  · subst hv
    rw [if_pos rfl] at h1
    split at h1
    · rename_i n heq
      exact uvpScalar_version_eq S nF ver allT i vals w
        (by rw [beq_iff_eq] at h1; rw [heq, h1])
    · exact absurd h1 (by simp)
  · by_cases hs : strHasSuffix nm secSfx = true
    · rw [if_pos hs] at h2
      split at h2
      · rename_i hj
        exact uvpScalar_orphan S nF ver allT nm i vals w hv hj
      · rename_i j hj
        rw [Bool.or_eq_true, beq_iff_eq, beq_iff_eq] at h2
        exact uvpScalar_marker_noop S nF ver allT nm i vals w j hv hj h2
    · exact uvpScalar_skip S nF ver allT nm i vals w hv
        (Bool.not_eq_true _ ▸ hs)

/-- Seal-stable data is a fixed point of the whole seal walk: the walk
succeeds, returns the value unchanged and leaves the walk state as it
found it. -/
theorem uvp_stable_id (S : SState) (nF : Nat → GoStr) (ver : Int) :
    (∀ (T : GoType) (v : GoVal) (w : WalkSt), sealStable S ver T v = true →
      updateVersionAndPasswords S nF ver T v w = Res.ok (v, w)) ∧
    (∀ (allT : List Fld) (todo : List Fld) (i : Nat) (vals : List GoVal)
      (w : WalkSt), sealStableF S ver allT todo i vals = true →
      uvpFields S nF ver allT todo i vals w = Res.ok (vals, w)) ∧
    (∀ (elemT : GoType) (l : List GoVal) (w : WalkSt),
      sealStableS S ver elemT l = true →
      uvpSlice S nF ver elemT l w = Res.ok (l, w)) := by
  refine updateVersionAndPasswords.mutual_induct S nF ver
    (fun T v w => sealStable S ver T v = true →
      updateVersionAndPasswords S nF ver T v w = Res.ok (v, w))
    (fun allT todo i vals w => sealStableF S ver allT todo i vals = true →
      uvpFields S nF ver allT todo i vals w = Res.ok (vals, w))
    (fun elemT l w => sealStableS S ver elemT l = true →
      uvpSlice S nF ver elemT l w = Res.ok (l, w))
    ?_ ?_ ?_ ?_ ?_ ?_ ?_ ?_ ?_ ?_ ?_
  · intro fT vals w ih hst
    rw [sealStable] at hst
    rw [updateVersionAndPasswords.eq_def]
    dsimp only
    rw [ih hst]
    rfl
  · intro fields x x1 hx hst
    rw [sealStable.eq_def] at hst
    split at hst
    · exact (hx _ rfl).elim
    · exact absurd hst (by simp)
    · rename_i hne _
      exact (hne fields rfl).elim
  · intro T v w hTv hT hst
    rw [updateVersionAndPasswords.eq_def]
    split
    · rename_i fT vals
      exact (hTv fT vals rfl rfl).elim
    · rename_i fT _
      exact (hT fT rfl).elim
    · rfl
  · intro allT i vals w hst
    rw [uvpFields.eq_def]
  · intro allT nm tag rest i vals w fT2 ih1 ih2 hst
    rw [sealStableF] at hst
    rw [Bool.and_eq_true] at hst
    obtain ⟨hst1, hst2⟩ := hst
    rw [uvpFields.eq_def]
    dsimp only
    rw [ih1 hst1]
    have hset : vals.set i (vals.getD i default) = vals :=
      set_getD_self vals i _ rfl
    have h5 := ih2 (vals.getD i default, w)
    dsimp only at h5
    rw [hset] at h5
    show uvpFields S nF ver allT rest (i + 1)
      (vals.set i (vals.getD i default)) w = _
    rw [hset]
    exact h5 hst2
  · intro allT nm tag rest i vals w elemT elems heq ih3 ih2 hst
    rw [sealStableF] at hst
    rw [heq] at hst
    rw [Bool.and_eq_true] at hst
    obtain ⟨hst1, hst2⟩ := hst
    rw [uvpFields.eq_def]
    dsimp only
    rw [heq]
    dsimp only
    rw [ih3 hst1]
    have hset : vals.set i (GoVal.slice elems) = vals :=
      set_getD_self vals i _ heq
    have h5 := ih2 (elems, w)
    dsimp only at h5
    rw [hset] at h5
    show uvpFields S nF ver allT rest (i + 1)
      (vals.set i (GoVal.slice elems)) w = _
    rw [hset]
    exact h5 hst2
  · intro allT nm tag rest i vals w elemT hne hst
    rw [sealStableF] at hst
    split at hst
    · rename_i elems heq
      exact (hne elems heq).elim
    · exact absurd hst (by simp)
  · intro allT nm tag ty rest i vals w hs hl ih2 hst
    rw [sealStableF] at hst
    rotate_left
    · exact hs
    · exact hl
    rw [Bool.and_eq_true] at hst
    obtain ⟨hst1, hst2⟩ := hst
    rw [uvpFields.eq_def]
    dsimp only
    split
    · exact (hs _ rfl).elim
    · exact (hl _ rfl).elim
    · rw [uvpScalar_stable_id S nF ver allT nm i vals w hst1]
      exact ih2 (vals, w) hst2
  · intro elemT w hst
    rw [uvpSlice.eq_def]
  · intro elemT e es w hS ih1 ih3 hst
    rw [sealStableS] at hst
    rw [if_pos hS, Bool.and_eq_true] at hst
    obtain ⟨hst1, hst2⟩ := hst
    rw [uvpSlice.eq_def]
    dsimp only
    rw [if_pos hS, ih1 hst1]
    show (uvpSlice S nF ver elemT es w).bind _ = _
    rw [ih3 (e, w) hst2]
    rfl
  · intro elemT e es w hS ih3 hst
    rw [sealStableS] at hst
    rw [if_neg hS, Bool.and_eq_true] at hst
    obtain ⟨hst1, hst2⟩ := hst
    rw [uvpSlice.eq_def]
    dsimp only
    rw [if_neg hS, ih3 hst2]
    rfl

/-! ### String facts about the field-name conventions -/

/-- A name ending in "Password" is never the Version field name. -/
theorem append_pwSfx_ne_versionName (a : String) : a ++ pwSfx ≠ versionName := by
  intro h
  have h2 := congrArg String.length h
  rw [String.length_append] at h2
  have h3 : pwSfx.length = 8 := rfl
  have h4 : versionName.length = 7 := rfl
  omega

/-- A name ending in "SecurePassword" is never the Version field name. -/
theorem append_secSfx_ne_versionName (a : String) : a ++ secSfx ≠ versionName := by
  intro h
  have h2 := congrArg String.length h
  rw [String.length_append] at h2
  have h3 : secSfx.length = 14 := rfl
  have h4 : versionName.length = 7 := rfl
  omega

/-- Appending a suffix yields a string with that suffix. -/
theorem strHasSuffix_append (a sfx : String) :
    strHasSuffix (a ++ sfx) sfx = true := by
  rw [strHasSuffix, String.data_append, List.isSuffixOf_iff_suffix]
  exact List.suffix_append _ _

/-- The sibling of `a ++ "SecurePassword"` is `a ++ "Password"`. -/
theorem sibName_append (a : String) : sibName (a ++ secSfx) = a ++ pwSfx := by
  rw [sibName, strTrimLen, String.data_append, List.length_append,
    Nat.add_sub_cancel, List.take_left]

/-- Full characterization of the seal walk on a generic password pair
record `{<a>Password: p, <a>SecurePassword: s}` (the prefix `a` itself not
SecurePassword-suffixed): when the plaintext field holds one of the two
recognized markers nothing happens and the walk state is untouched; for any
other plaintext value — the empty string included — the plaintext is
encrypted with the next fresh nonce into the SecurePassword field, the
plaintext field is overwritten with the canonical marker, and the change
flag is raised. -/
theorem seal_pair (S : SState) (nF : Nat → GoStr) (ver : Int) (a : String)
    (p s : GoStr) (c : Nat) (b : Bool)
    (hns : strHasSuffix (a ++ pwSfx) secSfx = false)
    (hkey : validKeyLen S.encryptionKey)
    (hnl : (nF c).length = nonceSize) :
    updateVersionAndPasswords S nF ver
      (.struct [(a ++ pwSfx, none, .str), (a ++ secSfx, none, .str)])
      (.struct [.str p, .str s]) ⟨c, b⟩ =
    (if p = S.mk_de ∨ p = S.mk_en then
      Res.ok (.struct [.str p, .str s], ⟨c, b⟩)
    else
      Res.ok (.struct [.str S.mk_cur,
        .str (b64encode (nF c ++ gcmSeal S.encryptionKey (nF c) p))],
        ⟨c + 1, true⟩)) := by
  have hj : List.findIdx? (fun (g : Fld) => g.1 == sibName (a ++ secSfx))
      [(a ++ pwSfx, none, GoType.str), (a ++ secSfx, none, GoType.str)] =
      some 0 := by
    rw [List.findIdx?]
    dsimp only
    rw [sibName_append]
    simp
  rw [updateVersionAndPasswords.eq_def]
  dsimp only
  rw [uvpFields.eq_def]
  dsimp only
  rw [uvpScalar_skip S nF ver _ _ 0 _ _ (append_pwSfx_ne_versionName a) hns]
  show (uvpFields S nF ver _ [(a ++ secSfx, none, GoType.str)] 1
    [.str p, .str s] ⟨c, b⟩).bind _ = _
  rw [uvpFields.eq_def]
  dsimp only
  by_cases hp : p = S.mk_de ∨ p = S.mk_en
  · rw [if_pos hp]
    rw [uvpScalar_marker_noop S nF ver _ _ 1 [.str p, .str s] ⟨c, b⟩ 0
      (append_secSfx_ne_versionName a) hj hp]
    show (uvpFields S nF ver _ [] 2 [.str p, .str s] ⟨c, b⟩).bind _ = _
    rw [uvpFields.eq_def]
    rfl
  · rw [if_neg hp]
    push_neg at hp
    rw [uvpScalar_seal S nF ver _ _ 1 [.str p, .str s] ⟨c, b⟩ 0 s p
      (append_secSfx_ne_versionName a) (strHasSuffix_append a secSfx) hj rfl rfl
      hp hkey hnl]
    show (uvpFields S nF ver _ [] 2 _ ⟨c + 1, true⟩).bind _ = _
    rw [uvpFields.eq_def]
    rfl

/-- Frame property of the seal walk's field loop: a position strictly below
the loop index — hence below every own-position write of the remaining
steps — whose slot no remaining field's sibling lookup designates keeps its
value. -/
theorem uvpFields_frame (S : SState) (nF : Nat → GoStr) (ver : Int)
    (allT : List Fld) :
    ∀ (todo : List Fld) (i : Nat) (vals : List GoVal) (w : WalkSt)
      (vals' : List GoVal) (w' : WalkSt) (q : Nat),
    uvpFields S nF ver allT todo i vals w = Res.ok (vals', w') →
    q < i →
    (∀ (k : Nat) (f : Fld), todo.get? k = some f →
      ∀ j, List.findIdx? (fun (g : Fld) => g.1 == sibName f.1) allT = some j →
        j ≠ q) →
    vals'.getD q default = vals.getD q default := by
  intro todo
  induction todo with
  | nil =>
    intro i vals w vals' w' q h hq hsib
    rw [uvpFields.eq_def] at h
    injection h with h
    injection h with h1 h2
    rw [← h1]
  | cons f rest ih =>
    intro i vals w vals' w' q h hq hsib
    obtain ⟨nm, tag, ty⟩ := f
    rw [uvpFields.eq_def] at h
    dsimp only at h
    split at h
    · obtain ⟨r, hr, h⟩ := bind_ok h
      rw [ih _ _ _ _ _ q h (by omega) (fun k f hk => hsib (k + 1) f hk),
        getD_set_ne _ _ _ _ (by omega)]
    · split at h
      · obtain ⟨r, hr, h⟩ := bind_ok h
        rw [ih _ _ _ _ _ q h (by omega) (fun k f hk => hsib (k + 1) f hk),
          getD_set_ne _ _ _ _ (by omega)]
      · exact absurd h (by simp)
    · obtain ⟨r, hr, h⟩ := bind_ok h
      obtain ⟨r1, r2⟩ := r
      rw [ih _ _ _ _ _ q h (by omega) (fun k f hk => hsib (k + 1) f hk)]
      exact (uvpScalar_frame S nF ver allT nm i vals w r1 r2 hr q (by omega)
        (fun j hj => Ne.symm (hsib 0 (nm, tag, ty) rfl j hj))).1

/-- Version reconciliation inside the seal walk's field loop: when the
remaining fields contain an integer field literally named Version at offset
k holding a value different from the expected version, and no remaining
field's sibling lookup designates the Version slot, a successful run leaves
the expected version in that slot and the change flag raised. -/
theorem uvpFields_version_set (S : SState) (nF : Nat → GoStr) (ver : Int)
    (allT : List Fld) :
    ∀ (todo : List Fld) (i : Nat) (vals : List GoVal) (w : WalkSt)
      (vals' : List GoVal) (w' : WalkSt) (k : Nat) (tag : Option GoStr)
      (n : Int),
    uvpFields S nF ver allT todo i vals w = Res.ok (vals', w') →
    todo.get? k = some (versionName, tag, GoType.int) →
    vals.getD (i + k) default = GoVal.int n → n ≠ ver →
    (∀ (k' : Nat) (f : Fld), todo.get? k' = some f →
      ∀ j, List.findIdx? (fun (g : Fld) => g.1 == sibName f.1) allT = some j →
        j ≠ i + k) →
    vals'.getD (i + k) default = GoVal.int ver ∧ w'.changed = true := by
  intro todo
  induction todo with
  | nil =>
    intro i vals w vals' w' k tag n h hget hval hne hsib
    exact absurd hget (by simp)
  | cons f rest ih =>
    intro i vals w vals' w' k tag n h hget hval hne hsib
    obtain ⟨nm, tag0, ty⟩ := f
    cases k with
    | zero =>
      injection hget with hget
      simp only [Prod.mk.injEq] at hget
      obtain ⟨hnm, htag0, hty⟩ := hget
      subst hnm
      subst hty
      simp only [Nat.add_zero] at hval hsib ⊢
      have hlen : i < vals.length := by
        by_contra hge
        rw [List.getD_eq_default _ _ (by omega)] at hval
        exact GoVal.noConfusion (show GoVal.str [] = GoVal.int n from hval)
      rw [uvpFields.eq_def] at h
      dsimp only at h
      obtain ⟨r, hr, h⟩ := bind_ok h
      obtain ⟨r1, r2⟩ := r
      rw [uvpScalar_version_set S nF ver allT i vals w n hval hne] at hr
      injection hr with hr
      injection hr with hA hB
      subst hA
      subst hB
      constructor
      · have hf := uvpFields_frame S nF ver allT rest (i + 1) _ _ vals' w' i h
          (by omega) (fun k f hk => hsib (k + 1) f hk)
        rw [hf, getD_set_self _ _ _ hlen]
      · exact (uvp_changed_mono S nF ver).2.1 allT rest (i + 1) _ _ vals' w' h rfl
    | succ k =>
      have hik : i + 1 + k = i + (k + 1) := by omega
      rw [uvpFields.eq_def] at h
      dsimp only at h
      split at h
      · obtain ⟨r, hr, h⟩ := bind_ok h
        have hrec := ih (i + 1) (vals.set i r.1) r.2 vals' w' k tag n h hget
          (by rw [hik, getD_set_ne _ _ _ _ (by omega)]; exact hval)
          hne (fun k' f hk' j hj => by rw [hik]; exact hsib (k' + 1) f hk' j hj)
        rw [hik] at hrec
        exact hrec
      · split at h
        · obtain ⟨r, hr, h⟩ := bind_ok h
          have hrec := ih (i + 1) (vals.set i (.slice r.1)) r.2 vals' w' k tag n
            h hget (by rw [hik, getD_set_ne _ _ _ _ (by omega)]; exact hval)
            hne
            (fun k' f hk' j hj => by rw [hik]; exact hsib (k' + 1) f hk' j hj)
          rw [hik] at hrec
          exact hrec
        · exact absurd h (by simp)
      · obtain ⟨r, hr, h⟩ := bind_ok h
        obtain ⟨r1, r2⟩ := r
        have hfr := uvpScalar_frame S nF ver allT nm i vals w r1 r2 hr
          (i + (k + 1)) (by omega)
          (fun j hj => Ne.symm (hsib 0 (nm, tag0, ty) rfl j hj))
        have hrec := ih (i + 1) r1 r2 vals' w' k tag n h hget
          (by rw [hik, hfr.1]; exact hval) hne
          (fun k' f hk' j hj => by rw [hik]; exact hsib (k' + 1) f hk' j hj)
        rw [hik] at hrec
        exact hrec

/-- Success-path decomposition of LoadConfig's post-read phase: with the
argument a pointer to a struct and defaults, parsing, the seal walk and the
decrypt walk each succeeding, the final record is the decode output; with
cleanConfig the decoded (plaintext) record is written unconditionally,
without it the sealed intermediate is written exactly when the walk raised
the change flag, and the decode output never reaches the file. -/
theorem LoadConfigCore_run (st' : SState) (nF : Nat → GoStr) (T : GoType)
    (v d v1 u1 dp1 : GoVal) (w1 : WalkSt) (dpe : Option GoErr)
    (ver : Int) (file : GoStr)
    (hTp : isStructT T = true)
    (hd : updateDefaultValues T v = Res.ok (d, none))
    (hj : jsonUnmarshal file d = some v1)
    (hu : updateVersionAndPasswords st' nF ver T v1 ⟨0, false⟩ = Res.ok (u1, w1))
    (hdp : decodePasswords st' T u1 = Res.ok (dp1, dpe)) :
    (LoadConfigCore st' nF true T v ver file true =
      Res.ok (dp1, (if dpe.isSome then none else some dp1),
        dpe.map GoErr.failedDecodePW)) ∧
    (LoadConfigCore st' nF true T v ver file false =
      Res.ok (dp1, (if w1.changed then some u1 else none),
        dpe.map GoErr.failedDecodePW)) := by
  constructor
  · rw [LoadConfigCore, if_neg (by simp [hTp]), hd]
    show Res.bind _ _ = _
    rw [Res.bind]
    dsimp only
    rw [hj]
    dsimp only
    rw [hu]
    show Res.bind _ _ = _
    rw [Res.bind]
    dsimp only
    rw [if_pos rfl]
    cases dpe with
    | some e =>
      rw [hdp]
      rfl
    | none =>
      rw [hdp]
      rfl
  · rw [LoadConfigCore, if_neg (by simp [hTp]), hd]
    show Res.bind _ _ = _
    rw [Res.bind]
    dsimp only
    rw [hj]
    dsimp only
    rw [hu]
    show Res.bind _ _ = _
    rw [Res.bind]
    dsimp only
    rw [if_neg (by simp)]
    cases dpe with
    | some e =>
      rw [hdp]
      rfl
    | none =>
      rw [hdp]
      rfl

/-! ### Claim C2 -/

/-- The generic two-field password pair record type used by concrete runs:
a plaintext field "Password" and its companion "SecurePassword". -/
def pairT : GoType :=
  .struct [(String.mk [] ++ pwSfx, none, .str), (String.mk [] ++ secSfx, none, .str)]

/-- The pair record with both fields empty. -/
def pairV0 : GoVal := .struct [.str [], .str []]

/-- The ciphertext produced for the empty plaintext with the first fresh
nonce under the initialized state `st1`. -/
def ct0 : GoStr := b64encode (nF0 0 ++ gcmSeal st1.encryptionKey (nF0 0) [])

/-- The pair record after the seal walk: marker + ciphertext. -/
def sealedV : GoVal := .struct [.str st1.mk_cur, .str ct0]

/-- The sealed pair record after the decrypt walk: plaintext restored in
the Password field, ciphertext kept. -/
def decV : GoVal := .struct [.str [], .str ct0]

/-- Claim C2 counterexample: a pair whose plaintext Password field is EMPTY
is not left alone: the walk encrypts the empty string into the
SecurePassword field, overwrites the Password field with the canonical
marker and raises the change flag, so a load of such a record modifies both
fields and triggers a file rewrite. This refutes the claim's "empty or
already a marker ⇒ do nothing"; only the marker case is a no-op. -/
theorem seal_empty_password_encrypts :
    updateVersionAndPasswords st1 nF0 1 pairT pairV0 ⟨0, false⟩ =
      Res.ok (sealedV, ⟨1, true⟩) := by
  rw [pairT, pairV0, seal_pair st1 nF0 1 (String.mk []) [] [] 0 false
    (by decide) (Or.inr (Or.inr (keyFromID_length 5))) rfl, if_neg (by decide)]
  rfl

/-- Claim C2 (amended): in the seal pass, a well-formed password pair whose
plaintext Password field already holds one of the recognized secure markers
is left entirely untouched and the change flag keeps its value; more
generally any seal-stable record (every pair marked, Version in sync) is a
fixed point of the whole walk, and a load of such a record (cleanConfig
false) rewrites nothing: the written-record slot stays empty. The original
claim's "empty plaintext ⇒ do nothing" is false (see the counterexample):
an empty plaintext is encrypted like any other non-marker value. -/
theorem seal_marker_idempotent (S : SState) (nF : Nat → GoStr) (ver : Int)
    (a : String) (p s : GoStr) (c : Nat) (b : Bool)
    (hns : strHasSuffix (a ++ pwSfx) secSfx = false)
    (hkey : validKeyLen S.encryptionKey)
    (hnl : (nF c).length = nonceSize)
    (hmk : p = S.mk_de ∨ p = S.mk_en) :
    (updateVersionAndPasswords S nF ver
      (.struct [(a ++ pwSfx, none, .str), (a ++ secSfx, none, .str)])
      (.struct [.str p, .str s]) ⟨c, b⟩ =
      Res.ok (.struct [.str p, .str s], ⟨c, b⟩)) ∧
    (∀ (T : GoType) (v : GoVal) (w0 : WalkSt), sealStable S ver T v = true →
      updateVersionAndPasswords S nF ver T v w0 = Res.ok (v, w0)) ∧
    (∀ (T : GoType) (v d v1 dp1 : GoVal) (dpe : Option GoErr) (file : GoStr),
      isStructT T = true →
      updateDefaultValues T v = Res.ok (d, none) →
      jsonUnmarshal file d = some v1 →
      sealStable S ver T v1 = true →
      decodePasswords S T v1 = Res.ok (dp1, dpe) →
      LoadConfigCore S nF true T v ver file false =
        Res.ok (dp1, none, dpe.map GoErr.failedDecodePW)) := by
  refine ⟨by rw [seal_pair S nF ver a p s c b hns hkey hnl, if_pos hmk],
    fun T v w0 h => (uvp_stable_id S nF ver).1 T v w0 h, ?_⟩
  intro T v d v1 dp1 dpe file hTp hd hj hst hdp
  have hu := (uvp_stable_id S nF ver).1 T v1 ⟨0, false⟩ hst
  exact (LoadConfigCore_run S nF T v d v1 v1 dp1 ⟨0, false⟩ dpe ver file
    hTp hd hj hu hdp).2

theorem seal_marker_idempotent_witness :
    ((markerOfLang .de : GoStr) = st1.mk_de ∨
      (markerOfLang .de : GoStr) = st1.mk_en) ∧
    updateVersionAndPasswords st1 nF0 1
      (.struct [(String.mk [] ++ pwSfx, none, .str),
                (String.mk [] ++ secSfx, none, .str)])
      (.struct [.str (markerOfLang .de), .str []]) ⟨0, false⟩ =
      Res.ok (.struct [.str (markerOfLang .de), .str []], ⟨0, false⟩) :=
  ⟨Or.inl rfl,
   (seal_marker_idempotent st1 nF0 1 (String.mk []) (markerOfLang .de) [] 0
     false (by decide) (Or.inr (Or.inr (keyFromID_length 5))) rfl
     (Or.inl rfl)).1⟩

/-! ### Claim C5 -/

/-- Claim C5: version reconciliation. (1) For a record whose field list
holds an integer field literally named Version at offset k with a value
different from the expected version — and no password pair designates the
Version slot as its sibling — a successful seal walk leaves the expected
version in that slot and raises the change flag. (2) When the values agree
the Version step touches neither the record nor the walk state. (3) A
raised change flag makes the (cleanConfig = false) load write the sealed
record back, even when no password changed. -/
theorem version_reconciliation (S : SState) (nF : Nat → GoStr) (ver : Int)
    (allT : List Fld) (vals : List GoVal) (v' : GoVal) (w' : WalkSt)
    (k : Nat) (tag : Option GoStr) (n : Int)
    (h : updateVersionAndPasswords S nF ver (.struct allT) (.struct vals)
      ⟨0, false⟩ = Res.ok (v', w'))
    (hget : allT.get? k = some (versionName, tag, GoType.int))
    (hval : vals.getD k default = GoVal.int n) (hne : n ≠ ver)
    (hsib : ∀ (k' : Nat) (f : Fld), allT.get? k' = some f →
      ∀ j, List.findIdx? (fun (g : Fld) => g.1 == sibName f.1) allT = some j →
        j ≠ k) :
    (∃ vals', v' = .struct vals' ∧ vals'.getD k default = GoVal.int ver ∧
      w'.changed = true) ∧
    (∀ (i : Nat) (vals0 : List GoVal) (w0 : WalkSt),
      vals0.getD i default = GoVal.int ver →
      uvpScalar S nF ver allT versionName i vals0 w0 = Res.ok (vals0, w0)) ∧
    (∀ (T : GoType) (v d v1 u1 dp1 : GoVal) (w1 : WalkSt)
      (dpe : Option GoErr) (file : GoStr),
      isStructT T = true →
      updateDefaultValues T v = Res.ok (d, none) →
      jsonUnmarshal file d = some v1 →
      updateVersionAndPasswords S nF ver T v1 ⟨0, false⟩ = Res.ok (u1, w1) →
      w1.changed = true →
      decodePasswords S T u1 = Res.ok (dp1, dpe) →
      LoadConfigCore S nF true T v ver file false =
        Res.ok (dp1, some u1, dpe.map GoErr.failedDecodePW)) := by
  refine ⟨?_,
    fun i vals0 w0 hv0 => uvpScalar_version_eq S nF ver allT i vals0 w0 hv0,
    ?_⟩
  · rw [updateVersionAndPasswords.eq_def] at h
    dsimp only at h
    obtain ⟨r, hr, h⟩ := bind_ok h
    obtain ⟨r1, r2⟩ := r
    injection h with h
    injection h with h1 h2
    have hv := uvpFields_version_set S nF ver allT allT 0 vals ⟨0, false⟩ r1 r2
      k tag n hr hget (by rw [Nat.zero_add]; exact hval) hne
      (fun k' f hk' j hj => by
        rw [Nat.zero_add]
        exact hsib k' f hk' j hj)
    rw [Nat.zero_add] at hv
    exact ⟨r1, h1.symm, hv.1, by rw [← h2]; exact hv.2⟩
  · intro T v d v1 u1 dp1 w1 dpe file hTp hd hj hu hchg hdp
    have hrun := (LoadConfigCore_run S nF T v d v1 u1 dp1 w1 dpe ver file
      hTp hd hj hu hdp).2
    rw [if_pos hchg] at hrun
    exact hrun

theorem version_reconciliation_witness :
    (updateVersionAndPasswords st1 nF0 6 (.struct [(versionName, none, .int)])
      (.struct [.int 5]) ⟨0, false⟩ =
      Res.ok (.struct [.int 6], ⟨0, true⟩)) ∧
    (∃ vals', (GoVal.struct [.int 6]) = .struct vals' ∧
      vals'.getD 0 default = GoVal.int 6 ∧
      (⟨0, true⟩ : WalkSt).changed = true) :=
  have hrun : updateVersionAndPasswords st1 nF0 6
      (.struct [(versionName, none, .int)]) (.struct [.int 5]) ⟨0, false⟩ =
      Res.ok (.struct [.int 6], ⟨0, true⟩) := by
    simp only [updateVersionAndPasswords, uvpFields]
    rfl
  ⟨hrun,
   (version_reconciliation st1 nF0 6 [(versionName, none, .int)] [.int 5]
     (.struct [.int 6]) ⟨0, true⟩ 0 none 5 hrun rfl rfl (by decide)
     (fun k' f hk' j hj => by
       cases k' with
       | zero =>
         injection hk' with hk'
         rw [← hk'] at hj
         have hnone : List.findIdx?
             (fun (g : Fld) => g.1 ==
               sibName (versionName, (none : Option GoStr), GoType.int).1)
             [(versionName, none, GoType.int)] = none := by decide
         rw [hnone] at hj
         exact Option.noConfusion hj
       | succ k' => exact absurd hk' (by simp))).1⟩

/-! ### Claim C9 -/

/-- Claim C9: write behavior of the two load modes, for loads whose stages
all succeed. With cleanConfig the decrypt walk runs first and its plaintext
output is both the final record and the record written to the file,
unconditionally (whatever the change flag says). Without cleanConfig the
file receives the sealed intermediate — and only when the change flag was
raised — while the plaintext record exists only in memory; moreover the
sealed intermediate of a password pair carries a recognized marker in its
plaintext slot, never the plaintext value. -/
theorem clean_config_write_behavior (st' : SState) (nF : Nat → GoStr)
    (T : GoType) (v d v1 u1 dp1 : GoVal) (w1 : WalkSt)
    (ver : Int) (file : GoStr)
    (hTp : isStructT T = true)
    (hd : updateDefaultValues T v = Res.ok (d, none))
    (hj : jsonUnmarshal file d = some v1)
    (hu : updateVersionAndPasswords st' nF ver T v1 ⟨0, false⟩ = Res.ok (u1, w1))
    (hdp : decodePasswords st' T u1 = Res.ok (dp1, none)) :
    (LoadConfigCore st' nF true T v ver file true =
      Res.ok (dp1, some dp1, none)) ∧
    (LoadConfigCore st' nF true T v ver file false =
      Res.ok (dp1, (if w1.changed then some u1 else none), none)) ∧
    (∀ (a : String) (p s : GoStr) (c : Nat) (b : Bool),
      strHasSuffix (a ++ pwSfx) secSfx = false →
      validKeyLen st'.encryptionKey → (nF c).length = nonceSize →
      ∃ (q ct : GoStr) (w2 : WalkSt),
        updateVersionAndPasswords st' nF ver
          (.struct [(a ++ pwSfx, none, .str), (a ++ secSfx, none, .str)])
          (.struct [.str p, .str s]) ⟨c, b⟩ =
          Res.ok (.struct [.str q, .str ct], w2) ∧
        (q = st'.mk_de ∨ q = st'.mk_en ∨ q = st'.mk_cur)) := by
  obtain ⟨h1, h2⟩ := LoadConfigCore_run st' nF T v d v1 u1 dp1 w1 none ver
    file hTp hd hj hu hdp
  refine ⟨h1, h2, ?_⟩
  intro a p s c b hns hkey hnl
  by_cases hp : p = st'.mk_de ∨ p = st'.mk_en
  · refine ⟨p, s, ⟨c, b⟩,
      by rw [seal_pair st' nF ver a p s c b hns hkey hnl, if_pos hp], ?_⟩
    rcases hp with hp | hp
    · exact Or.inl hp
    · exact Or.inr (Or.inl hp)
  · exact ⟨st'.mk_cur,
      b64encode (nF c ++ gcmSeal st'.encryptionKey (nF c) p), ⟨c + 1, true⟩,
      by rw [seal_pair st' nF ver a p s c b hns hkey hnl, if_neg hp],
      Or.inr (Or.inr rfl)⟩

theorem clean_config_write_behavior_witness :
    (decodePasswords st1 pairT sealedV = Res.ok (decV, none)) ∧
    (LoadConfigCore st1 nF0 true pairT pairV0 1 [123, 125] true =
      Res.ok (decV, some decV, none)) ∧
    (LoadConfigCore st1 nF0 true pairT pairV0 1 [123, 125] false =
      Res.ok (decV, some sealedV, none)) :=
  have hd : updateDefaultValues pairT pairV0 = Res.ok (pairV0, none) := by
    rw [pairT, pairV0]
    simp only [updateDefaultValues, udvFields]
    rfl
  have hu : updateVersionAndPasswords st1 nF0 1 pairT pairV0 ⟨0, false⟩ =
      Res.ok (sealedV, ⟨1, true⟩) := by
    rw [pairT, pairV0, seal_pair st1 nF0 1 (String.mk []) [] [] 0 false
      (by decide) (Or.inr (Or.inr (keyFromID_length 5))) rfl,
      if_neg (by decide)]
    rfl
  have hdp : decodePasswords st1 pairT sealedV = Res.ok (decV, none) := by
    rw [pairT, sealedV, ct0, decV]
    simp only [decodePasswords, decFields]
    rfl
  have H := clean_config_write_behavior st1 nF0 pairT pairV0 pairV0 pairV0
    sealedV decV ⟨1, true⟩ 1 [123, 125] rfl hd rfl hu hdp
  ⟨hdp, H.1, H.2.1⟩

end Sconfig
